import Mathlib

/-!
# Verification of the Connection-Text Parsing & Pair-Orientation Engine

This file gives a shallow embedding, in Lean 4, of the parsing core of the
Beanfield-Trace repository (files `app/fiber_trace.py`, `app/fiber_action.py`,
`app/parse_device_sheet.py`, `app/clean_json.py`) and proves, or refutes,
the behavioural claims made about it.

Python strings are modelled as Lean `String` (a wrapper around `List Char`);
Python `dict`s (which preserve insertion order) are modelled as association
lists; Python `set`s are modelled as duplicate-free lists (no claim settled
here depends on a set's iteration order).  All definitions are executable and
recursion is structural, so concrete runs evaluate by `rfl` / `decide`.
-/

/-! ## Basic character/list machinery -/

/-- Characters treated as whitespace by Python's `str.strip()` / `\s`
(ASCII range, which is the domain of the encoded blobs). -/
def isPySpace (c : Char) : Bool :=
  c = ' ' || c = '\t' || c = '\n' || c = '\r' || c = '\x0b' || c = '\x0c'

/-- Boolean test: the first list is an initial segment of the second. -/
def leadsWith : List Char → List Char → Bool
  | [], _ => true
  | _ :: _, [] => false
  | p :: ps, c :: cs => p = c && leadsWith ps cs

/-- Boolean test: the pattern `q` occurs as a contiguous block somewhere in
the list (Python's `q in s`). -/
def hasOccur (q : List Char) : List Char → Bool
  | [] => q.isEmpty
  | c :: cs => leadsWith q (c :: cs) || hasOccur q cs

/-- Worker for `replaceAll`: scans the list left to right; `skip` counts
characters that belong to an already-replaced match and are dropped. -/
def replGo (p r : List Char) : List Char → Nat → List Char
  | [], _ => []
  | _ :: cs, Nat.succ k => replGo p r cs k
  | c :: cs, 0 =>
    if p ≠ [] ∧ leadsWith p (c :: cs) then r ++ replGo p r cs (p.length - 1)
    else c :: replGo p r cs 0

/-- Replacement of every (leftmost, non-overlapping) occurrence of `p` by `r`,
the semantics of Python's `str.replace` for a non-empty pattern. -/
def replaceAll (p r s : List Char) : List Char :=
  replGo p r s 0

/-- Removal of leading Python whitespace (`str.lstrip`). -/
def stripLead (l : List Char) : List Char :=
  l.dropWhile isPySpace

/-- Removal of trailing Python whitespace (`str.rstrip`). -/
def stripTrail (l : List Char) : List Char :=
  (stripLead l.reverse).reverse

/-- Python's `str.strip()`: drop whitespace at both ends. -/
def pyStrip (l : List Char) : List Char :=
  stripTrail (stripLead l)

/-! ## Token Decoder (`fiber_trace._decode`, fiber_trace.py lines 23-27) -/

/-- Stage 1 of `_decode`: `.replace("<COMMA>", ",")`. -/
def dstage1 (l : List Char) : List Char := replaceAll "<COMMA>".data [','] l

/-- Stage 2 of `_decode`: `.replace("<COLON>", ":")`. -/
def dstage2 (l : List Char) : List Char := replaceAll "<COLON>".data [':'] (dstage1 l)

/-- Stage 3 of `_decode`: `.replace("<OPEN>", "(")`. -/
def dstage3 (l : List Char) : List Char := replaceAll "<OPEN>".data ['('] (dstage2 l)

/-- Stage 4 of `_decode`: `.replace("<CLOSE>", ")")`. -/
def dstage4 (l : List Char) : List Char := replaceAll "<CLOSE>".data [')'] (dstage3 l)

/-- Stage 5 of `_decode`: `.replace("<AND>", "&")`. -/
def dstage5 (l : List Char) : List Char := replaceAll "<AND>".data ['&'] (dstage4 l)

/-- Stage 6 of `_decode`: `.replace("\\n", "\n")` (literal backslash-n to a
real newline). -/
def dstage6 (l : List Char) : List Char := replaceAll "\\n".data ['\n'] (dstage5 l)

/-- Character-list core of `_decode`: the six literal replacements in source
order, then `strip()`. -/
def decodeL (l : List Char) : List Char :=
  pyStrip (dstage6 l)

/-- Embedding of `fiber_trace._decode` (fiber_trace.py lines 23-27): replace
the placeholder tokens `<COMMA> <COLON> <OPEN> <CLOSE> <AND>` and the literal
backslash-n by their real characters, then strip surrounding whitespace.
The Python function returns `""` for non-string input; the embedding models
the string branch. -/
def decodeText (s : String) : String :=
  String.mk (decodeL s.data)

/-- Property used by the second clause of C9: the string contains none of the
six placeholder tokens `_decode` rewrites. -/
def tokenFreeText (s : String) : Prop :=
  hasOccur "<COMMA>".data s.data = false ∧
  hasOccur "<COLON>".data s.data = false ∧
  hasOccur "<OPEN>".data s.data = false ∧
  hasOccur "<CLOSE>".data s.data = false ∧
  hasOccur "<AND>".data s.data = false ∧
  hasOccur "\\n".data s.data = false

instance (s : String) : Decidable (tokenFreeText s) := by
  unfold tokenFreeText; infer_instance

/-- Python's `str.strip()` on `String`. -/
def stripText (s : String) : String :=
  String.mk (pyStrip s.data)

/-! ## Regex scanners for `fiber_action.py`

The Python module drives everything off a handful of regular expressions.
They are embedded here as deterministic scanners over `List Char`; each
scanner reproduces the leftmost-match (and, where it matters, the
backtracking) behaviour of the corresponding pattern on its input class.
-/

/-- Character class `[A-Za-z0-9#._ slash dash]` used for PMID/location tokens in
`PAIR_RE` and `TAIL_PAIR_RE`. -/
def isTokChar (c : Char) : Bool :=
  c.isAlphanum || c = '#' || c = '.' || c = '_' || c = '/' || c = '-'

/-- Character class `[A-Za-z0-9_-]` of the `_PMID` capture group. -/
def isPmidChar (c : Char) : Bool :=
  c.isAlphanum || c = '_' || c = '-'

/-- Python regex word character `\w` (ASCII): `[A-Za-z0-9_]`. -/
def isWordChar (c : Char) : Bool :=
  c.isAlphanum || c = '_'

/-- Case-insensitive literal match: `pat` must be given in lowercase; returns
the actually matched characters and the rest of the input. -/
def matchCI : List Char → List Char → Option (List Char × List Char)
  | [], s => some ([], s)
  | _ :: _, [] => none
  | p :: ps, c :: cs =>
    if c.toLower = p then (matchCI ps cs).map (fun pr => (c :: pr.1, pr.2))
    else none

/-- Captured text of a `\[\s*([^\]]+?)\s*\]` bracket group whose raw inside
is `content`: fails on an empty inside, keeps a single space when the inside
is all whitespace, otherwise strips the surrounding whitespace. -/
def bracketGroup (content : List Char) : Option (List Char) :=
  if content = [] then none
  else if pyStrip content = [] then some [' ']
  else some (pyStrip content)

/-- Separator `\s*(?:-|\s+)?\s*` between the two bracketed endpoints of
`PAIR_RE`: whitespace, at most one dash, whitespace. -/
def sepSkip (s : List Char) : List Char :=
  let s1 := s.dropWhile isPySpace
  match s1 with
  | '-' :: rest => rest.dropWhile isPySpace
  | _ => s1

/-- Result of a successful `PAIR_RE` match (the five capture groups). -/
structure PairMatch where
  verb : String
  A : String
  Ar : String
  B : String
  Br : String
deriving DecidableEq

/-- Attempted `PAIR_RE` match anchored at the start of `s`:
`(Splice|BREAK)\s+A\s*\[Ar\]\s*(?:-|\s+)?\s*B\s*\[Br\]`, case-insensitive. -/
def pairAt (s : List Char) : Option PairMatch :=
  let vb : Option (List Char × List Char) :=
    match matchCI "splice".data s with
    | some pr => some pr
    | none => matchCI "break".data s
  match vb with
  | none => none
  | some (vtxt, r0) =>
    if (r0.takeWhile isPySpace).isEmpty then none else
    let r1 := r0.dropWhile isPySpace
    let atok := r1.takeWhile isTokChar
    if atok.isEmpty then none else
    let r2 := (r1.dropWhile isTokChar).dropWhile isPySpace
    match r2 with
    | '[' :: r3 =>
      let ac := r3.takeWhile (fun c => c ≠ ']')
      (match r3.dropWhile (fun c => c ≠ ']') with
       | ']' :: r4 =>
         (match bracketGroup ac with
          | none => none
          | some ag =>
            let r5 := sepSkip r4
            let btok := r5.takeWhile isTokChar
            if btok.isEmpty then none else
            let r6 := (r5.dropWhile isTokChar).dropWhile isPySpace
            match r6 with
            | '[' :: r7 =>
              let bc := r7.takeWhile (fun c => c ≠ ']')
              (match r7.dropWhile (fun c => c ≠ ']') with
               | ']' :: _ =>
                 (bracketGroup bc).map (fun bg =>
                   ⟨String.mk vtxt, String.mk atok, String.mk ag,
                    String.mk btok, String.mk bg⟩)
               | _ => none)
            | _ => none)
       | _ => none)
    | _ => none

/-- Leftmost-search worker for `PAIR_RE`. -/
def scanFirstPair : List Char → Option PairMatch
  | [] => none
  | c :: cs =>
    match pairAt (c :: cs) with
    | some m => some m
    | none => scanFirstPair cs

/-- Embedding of `PAIR_RE.search` (fiber_action.py lines 22-28). -/
def findPair (s : String) : Option PairMatch :=
  scanFirstPair s.data

/-- Generic first-success search over a list of candidates. -/
def firstSome {α β : Type} (f : α → Option β) : List α → Option β
  | [] => none
  | a :: rest =>
    match f a with
    | some b => some b
    | none => firstSome f rest

/-- Dash positions inside a token run, rightmost first (the order in which
the regex engine backtracks the greedy first group of `TAIL_PAIR_RE`). -/
def dashPositionsDesc (run : List Char) : List Nat :=
  ((run.enum.filter (fun p => p.2 = '-')).map (fun p => p.1)).reverse

/-- Attempted `TAIL_PAIR_RE` match anchored at the start of `s`:
`([A-Za-z0-9#._ slash dash]{2,})\s*-\s*([A-Za-z0-9#._ slash dash]{2,})`.  Returns the two
groups and the total number of characters consumed. -/
def tailPairAt (s : List Char) : Option ((String × String) × Nat) :=
  let run := s.takeWhile isTokChar
  let n := run.length
  if n < 2 then none else
  let afterRun := s.drop n
  let caseFull : Option ((String × String) × Nat) :=
    let sp1 := afterRun.takeWhile isPySpace
    let r1 := afterRun.dropWhile isPySpace
    match r1 with
    | '-' :: r2 =>
      let sp2 := r2.takeWhile isPySpace
      let r3 := r2.dropWhile isPySpace
      let g2 := r3.takeWhile isTokChar
      if g2.length ≥ 2 then
        some ((String.mk run, String.mk g2),
          n + sp1.length + 1 + sp2.length + g2.length)
      else none
    | _ => none
  match caseFull with
  | some res => some res
  | none =>
    firstSome (fun j =>
      if j < 2 then none else
      let rem := s.drop (j + 1)
      let sp := rem.takeWhile isPySpace
      let r := rem.dropWhile isPySpace
      let g2 := r.takeWhile isTokChar
      if g2.length ≥ 2 then
        some ((String.mk (run.take j), String.mk g2),
          (j + 1) + sp.length + g2.length)
      else none) (dashPositionsDesc run)

/-- Worker for `TAIL_PAIR_RE.findall`: leftmost non-overlapping matches;
`skip` counts characters still belonging to the previous match. -/
def tailPairsGo : List Char → Nat → List (String × String)
  | [], _ => []
  | _ :: cs, Nat.succ k => tailPairsGo cs k
  | c :: cs, 0 =>
    match tailPairAt (c :: cs) with
    | some (pr, consumed) => pr :: tailPairsGo cs (consumed - 1)
    | none => tailPairsGo cs 0

/-- Embedding of `TAIL_PAIR_RE.findall` (fiber_action.py line 31). -/
def tailPairs (s : String) : List (String × String) :=
  tailPairsGo s.data 0

/-- Test for `[0-9]+` covering the whole rest of the input. -/
def digitsEnd (l : List Char) : Bool :=
  !(l.takeWhile Char.isDigit).isEmpty && (l.dropWhile Char.isDigit).isEmpty

/-- Test for `[0-9]+[A-Z]?` (case-insensitive) covering the whole input. -/
def digitsOptLetterEnd (l : List Char) : Bool :=
  !(l.takeWhile Char.isDigit).isEmpty &&
  (match l.dropWhile Char.isDigit with
   | [] => true
   | [c] => c.isAlpha
   | _ => false)

/-- Embedding of `LOC_TOKEN_RE` (fiber_action.py line 67): full-string match
of `M#<digits><letter?>`, `D#<digits><letter?>`, `PA<digits>` or
`BFMA<digits>`, case-insensitive. -/
def locTokenMatch (t : String) : Bool :=
  (match t.data with
   | c0 :: '#' :: rest =>
     (c0.toLower = 'm' || c0.toLower = 'd') && digitsOptLetterEnd rest
   | _ => false) ||
  (match matchCI "pa".data t.data with
   | some (_, rest) => digitsEnd rest
   | none => false) ||
  (match matchCI "bfma".data t.data with
   | some (_, rest) => digitsEnd rest
   | none => false)

/-- Worker for `_pick_location_tail`: last pair whose two sides are both
location tokens (the reversed scan of fiber_action.py lines 69-75). -/
def pickLocTailGo : List (String × String) → String × String
  | [] => ("", "")
  | (l, r) :: rest =>
    if locTokenMatch l && locTokenMatch r then (l, r) else pickLocTailGo rest

/-- Embedding of `fiber_action._pick_location_tail` (lines 69-75). -/
def pickLocationTail (s : String) : String × String :=
  pickLocTailGo (tailPairs s).reverse

/-! ## CA-order model and `_normalize_desc` (fiber_action.py lines 170-262) -/

/-- Association-list lookup (Python `dict` access; dicts keep insertion
order, so maps are modelled as ordered association lists). -/
def lookupA {α β : Type} [DecidableEq α] (k : α) : List (α × β) → Option β
  | [] => none
  | (k', v) :: rest => if k = k' then some v else lookupA k rest

/-- Per-box CA order map: `pmid -> rank`, in insertion order. -/
abbrev OrderMap := List (String × Nat)

/-- The `ca_order_by_box` mapping `box -> (pmid -> rank)`. -/
abbrev CAOrder := List (String × OrderMap)

/-- The reverse index `boxes_by_pmid : pmid -> set(box)`. -/
abbrev BoxesByPmid := List (String × List String)

/-- The `pair_orient` dict keyed by `frozenset((a,b))`; the key is stored as
the pair it was built from and looked up regardless of orientation. -/
abbrev PairOrient := List ((String × String) × (String × String))

/-- Unordered lookup into `pair_orient` (Python `frozenset((A,B)) in dict`). -/
def lookupPairKey (po : PairOrient) (a b : String) : Option (String × String) :=
  match po with
  | [] => none
  | ((x, y), v) :: rest =>
    if (x = a ∧ y = b) ∨ (x = b ∧ y = a) then some v else lookupPairKey rest a b

/-- Case-insensitive containment `sub in text.lower()` for an already
lowercase `sub` (Python `in` after `str.lower()`). -/
def containsLow (sub : String) (text : String) : Bool :=
  hasOccur sub.data (text.data.map Char.toLower)

/-- Embedding of `fiber_action._find_common_box` (lines 170-198): prefer the
valid location hint containing both PMIDs; otherwise intersect the reverse
index; a unique common box wins; among several, the first whose order map has
`A ≤ B` wins, else the lexicographically smallest. -/
def findCommonBox (A B : String) (co : CAOrder) (bp : BoxesByPmid)
    (locHint : Option String) : Option String :=
  let hintOk : Option String :=
    match locHint with
    | some h =>
      if h = "" then none else
      match lookupA h co with
      | some om =>
        if (lookupA A om).isSome && (lookupA B om).isSome then some h else none
      | none => none
    | none => none
  match hintOk with
  | some h => some h
  | none =>
    let aB := (lookupA A bp).getD []
    let bB := (lookupA B bp).getD []
    let common := aB.filter (fun bx => decide (bx ∈ bB))
    match common with
    | [] => none
    | [bx] => some bx
    | _ =>
      match common.find? (fun bx =>
        match lookupA bx co with
        | some om =>
          match lookupA A om, lookupA B om with
          | some ia, some ib => decide (ia ≤ ib)
          | _, _ => false
        | none => false) with
      | some bx => some bx
      | none => some (common.foldl (fun m s => if s < m then s else m) (common.headD ""))

/-- Verb decision of `_normalize_desc` (fiber_action.py lines 221-224): the
action label alone decides; `remove`/`break` in the label forces `BREAK`. -/
def verbFromAction (action : String) : String :=
  if containsLow "remove" action || containsLow "break" action then "BREAK"
  else "Splice"

/-- Endpoint-orientation core of `_normalize_desc` (fiber_action.py lines
236-256): common-box ordering, then explicit observed orientation, then the
single-known-PMID fallback, else keep the original order. -/
def orientPair (A Ar B Br : String) (locHint : Option String)
    (co : CAOrder) (bp : BoxesByPmid) (po : PairOrient) :
    String × String × String × String :=
  match findCommonBox A B co bp locHint with
  | some bx =>
    let om := (lookupA bx co).getD []
    (match lookupA A om, lookupA B om with
     | some ia, some ib => if ib < ia then (B, Br, A, Ar) else (A, Ar, B, Br)
     | _, _ => (A, Ar, B, Br))
  | none =>
    match lookupPairKey po A B with
    | some (a, b) =>
      if ((A = a ∧ B = b) ∨ (A = b ∧ B = a)) ∧ A = b then (B, Br, A, Ar)
      else (A, Ar, B, Br)
    | none =>
      let aB := (lookupA A bp).getD []
      let bB := (lookupA B bp).getD []
      if !aB.isEmpty && bB.isEmpty then (A, Ar, B, Br)
      else if !bB.isEmpty && aB.isEmpty then (B, Br, A, Ar)
      else (A, Ar, B, Br)

/-- Location hint of `_normalize_desc` (fiber_action.py line 234): the tail
location pair when both sides agree and are non-empty. -/
def pickedHint (desc : String) : Option String :=
  let lt := pickLocationTail desc
  if lt.1 = lt.2 ∧ lt.1 ≠ "" then some lt.1 else none

/-- Embedding of `fiber_action._normalize_desc` (lines 204-262): parse the
pair, decide the verb from the action label, pick the location tail, orient
the endpoints, and rebuild the normalized description. -/
def normalizeDesc (action desc : String) (co : CAOrder) (bp : BoxesByPmid)
    (po : PairOrient) : String :=
  match findPair desc with
  | none => desc
  | some m =>
    let verb := verbFromAction action
    let lt := pickLocationTail desc
    match orientPair m.A m.Ar m.B m.Br (pickedHint desc) co bp po with
    | (a2, ar2, b2, br2) =>
      let core := verb ++ " " ++ a2 ++ " [" ++ ar2 ++ "] " ++ b2 ++ " [" ++ br2 ++ "]"
      if lt.1 ≠ "" ∧ lt.2 ≠ "" then core ++ " " ++ lt.1 ++ " - " ++ lt.2 else core

/-- Verb-free remainder of a normalized description (everything after the
verb and the following space); used to state that the verb choice depends on
the action label only. -/
def normRest (desc : String) (m : PairMatch) (co : CAOrder) (bp : BoxesByPmid)
    (po : PairOrient) : String :=
  let lt := pickLocationTail desc
  match orientPair m.A m.Ar m.B m.Br (pickedHint desc) co bp po with
  | (a2, ar2, b2, br2) =>
    let core := a2 ++ " [" ++ ar2 ++ "] " ++ b2 ++ " [" ++ br2 ++ "]"
    if lt.1 ≠ "" ∧ lt.2 ≠ "" then core ++ " " ++ lt.1 ++ " - " ++ lt.2 else core

/-! ## Length/OTDR scanners and the `_parse_section` loop (fiber_trace.py) -/

/-- Generic leftmost-search: try the anchored matcher at every position. -/
def scanFirstOpt {β : Type} (f : List Char → Option β) : List Char → Option β
  | [] => none
  | c :: cs =>
    match f (c :: cs) with
    | some b => some b
    | none => scanFirstOpt f cs

/-- Numeric value of a digit run (Python `int` on the captured group). -/
def digitsToNat (l : List Char) : Nat :=
  l.foldl (fun acc c => acc * 10 + (c.toNat - 48)) 0

/-- Anchored match of the `_PMID` pattern body `(?:n?PMID)\s*[: ]\s*` followed
by the `[A-Za-z0-9_-]+` capture (the word boundary is checked by the caller);
returns the captured token and the characters consumed. -/
def pmidAt (s : List Char) : Option (List Char × Nat) :=
  let afterKw : Option (List Char × Nat) :=
    match matchCI "npmid".data s with
    | some (_, rest) => some (rest, 5)
    | none =>
      match matchCI "pmid".data s with
      | some (_, rest) => some (rest, 4)
      | none => none
  match afterKw with
  | none => none
  | some (r0, k0) =>
    let ws := r0.takeWhile isPySpace
    let r := r0.dropWhile isPySpace
    let branchA : Option (List Char × Nat) :=
      match r with
      | ':' :: r2 =>
        let ws2 := r2.takeWhile isPySpace
        let r3 := r2.dropWhile isPySpace
        let tok := r3.takeWhile isPmidChar
        if tok.isEmpty then none
        else some (tok, k0 + ws.length + 1 + ws2.length + tok.length)
      | _ => none
    match branchA with
    | some res => some res
    | none =>
      if ws.isEmpty then none
      else
        let tok := r.takeWhile isPmidChar
        if tok.isEmpty then none
        else some (tok, k0 + ws.length + tok.length)

/-- Worker for `_PMID.finditer`: tracks the previous character for the `\b`
boundary and the characters still owned by the previous match. -/
def pmidsGo : Option Char → List Char → Nat → List (List Char)
  | _, [], _ => []
  | _, c :: cs, Nat.succ k => pmidsGo (some c) cs k
  | prev, c :: cs, 0 =>
    let bOK : Bool :=
      match prev with
      | none => true
      | some pch => !(isWordChar pch)
    if bOK then
      match pmidAt (c :: cs) with
      | some (tok, consumed) => tok :: pmidsGo (some c) cs (consumed - 1)
      | none => pmidsGo (some c) cs 0
    else pmidsGo (some c) cs 0

/-- Embedding of `fiber_trace._pmids` (lines 30, 35-36): all PMID tokens of a
line, uppercased. -/
def pmidsScan (s : String) : List String :=
  (pmidsGo none s.data 0).map (fun t => String.mk (t.map Char.toUpper))

/-- Trailing part `\s*:\s*([0-9]+)` shared by the `_CALC` alternatives. -/
def afterKwNum (r : List Char) : Option Nat :=
  let r1 := r.dropWhile isPySpace
  match r1 with
  | ':' :: r2 =>
    let r3 := r2.dropWhile isPySpace
    let ds := r3.takeWhile Char.isDigit
    if ds.isEmpty then none else some (digitsToNat ds)
  | _ => none

/-- Anchored match of `_CALC` (fiber_trace.py line 32):
`(?:Calculated|Cable\s*Length\s*Calculated)\s*:\s*([0-9]+)`, case-insensitive. -/
def calcAt (s : List Char) : Option Nat :=
  match matchCI "calculated".data s with
  | some (_, rest) => afterKwNum rest
  | none =>
    match matchCI "cable".data s with
    | some (_, r1) =>
      (match matchCI "length".data (r1.dropWhile isPySpace) with
       | some (_, r2) =>
         (match matchCI "calculated".data (r2.dropWhile isPySpace) with
          | some (_, r3) => afterKwNum r3
          | none => none)
       | none => none)
    | none => none

/-- Anchored match of `_OTDR` (fiber_trace.py line 33):
`OTDR\s*[:; -]\s*([0-9]+)`, case-insensitive. -/
def otdrAt (s : List Char) : Option Nat :=
  match matchCI "otdr".data s with
  | some (_, rest) =>
    let ws := rest.takeWhile isPySpace
    let r := rest.dropWhile isPySpace
    (match r with
     | c :: r2 =>
       if c = ':' || c = ';' || c = '-' then
         let r3 := r2.dropWhile isPySpace
         let ds := r3.takeWhile Char.isDigit
         if ds.isEmpty then none else some (digitsToNat ds)
       else if ws.isEmpty then none
       else
         let ds := r.takeWhile Char.isDigit
         if ds.isEmpty then none else some (digitsToNat ds)
     | [] => none)
  | none => none

/-- Python dict assignment on an insertion-ordered association list: an
existing key keeps its position, a new key is appended. -/
def setA {α β : Type} [DecidableEq α] (k : α) (v : β) :
    List (α × β) → List (α × β)
  | [] => [(k, v)]
  | (k', v') :: rest =>
    if k = k' then (k, v) :: rest else (k', v') :: setA k v rest

/-- Python `set.add` modelled on a first-seen list. -/
def addIfNew (x : String) (l : List String) : List String :=
  if x ∈ l then l else l ++ [x]

/-- Python `set.update` over a list of elements. -/
def addAllNew (xs : List String) (l : List String) : List String :=
  xs.foldl (fun acc x => addIfNew x acc) l

/-- Uppercasing (`str.upper()`, ASCII domain). -/
def upperText (s : String) : String :=
  String.mk (s.data.map Char.toUpper)

/-- Accumulator of the `_parse_section` classification loop. -/
structure SectionAcc where
  cables : List String
  splices : List String
  lengths : List (String × (Option Nat × Option Nat))
  pmidSig : List String
deriving DecidableEq

/-- One step of the `_parse_section` loop over `lines[2:]` (fiber_trace.py
lines 97-113): classify the decoded line as cable attachment, splice line or
length measurement; a measurement stores
`(calc if calc is not None else prev[0], otdr if otdr is not None else prev[1])`
under the line's first PMID. -/
def sectionStep (acc : SectionAcc) (raw : String) : SectionAcc :=
  let t := decodeText raw
  let up := upperText t
  if leadsWith "CA".data up.data then
    { acc with cables := acc.cables ++ [t],
               pmidSig := addAllNew (pmidsScan t) acc.pmidSig }
  else if hasOccur "-- SPLICE --".data up.data then
    { acc with splices := acc.splices ++ [t],
               pmidSig := addAllNew (pmidsScan t) acc.pmidSig }
  else if hasOccur "CABLE LENGTH".data up.data ||
          hasOccur "CALCULATED".data up.data ||
          hasOccur "OTDR".data up.data then
    match pmidsScan t with
    | [] => acc
    | pmid :: _ =>
      let calcV := scanFirstOpt calcAt t.data
      let otdrV := scanFirstOpt otdrAt t.data
      let prev := (lookupA pmid acc.lengths).getD (none, none)
      { acc with
        lengths := setA pmid
          ((if calcV.isSome then calcV else prev.1),
           (if otdrV.isSome then otdrV else prev.2)) acc.lengths,
        pmidSig := addIfNew pmid acc.pmidSig }
  else acc

/-- The `_parse_section` loop applied to the section body (`lines[2:]`). -/
def parseSectionBody (body : List String) : SectionAcc :=
  body.foldl sectionStep ⟨[], [], [], []⟩

/-! ## Splice Event Grouper (`fiber_trace._compact`, `_group_splices`) -/

/-- Anchored match of `_FNUM` (fiber_trace.py line 31): `\.F\s*([0-9]+)`
(case-sensitive); returns the number and the characters consumed. -/
def fnumAt (s : List Char) : Option (Nat × Nat) :=
  match s with
  | '.' :: 'F' :: r =>
    let ws := r.takeWhile isPySpace
    let r2 := r.dropWhile isPySpace
    let ds := r2.takeWhile Char.isDigit
    if ds.isEmpty then none else some (digitsToNat ds, 2 + ws.length + ds.length)
  | _ => none

/-- Worker for `_FNUM.findall`. -/
def fnumsGo : List Char → Nat → List Nat
  | [], _ => []
  | _ :: cs, Nat.succ k => fnumsGo cs k
  | c :: cs, 0 =>
    match fnumAt (c :: cs) with
    | some (v, consumed) => v :: fnumsGo cs (consumed - 1)
    | none => fnumsGo cs 0

/-- All `.F<n>` fiber indices of a splice line. -/
def fnumsScan (s : String) : List Nat :=
  fnumsGo s.data 0

/-- Ordered duplicate-free insertion, building `sorted(set(...))`. -/
def insertD (n : Nat) : List Nat → List Nat
  | [] => [n]
  | m :: ms =>
    if n < m then n :: m :: ms
    else if n = m then m :: ms
    else m :: insertD n ms

/-- Python `sorted(set(nums))` for naturals. -/
def sortedDedup (l : List Nat) : List Nat :=
  l.foldr insertD []

/-- Run-length loop of `_compact` (fiber_trace.py lines 41-45): extend the
current run `[a, b]` while numbers stay consecutive. -/
def runsAux (a b : Nat) : List Nat → List (Nat × Nat)
  | [] => [(a, b)]
  | n :: ns => if n = b + 1 then runsAux a n ns else (a, b) :: runsAux n n ns

/-- Python `",".join(...)`. -/
def joinComma : List String → String
  | [] => ""
  | [x] => x
  | x :: xs => x ++ "," ++ joinComma xs

/-- Embedding of `fiber_trace._compact` (lines 38-46): sort and deduplicate,
merge consecutive numbers into `a-b` ranges, keep singletons standalone and
join with commas.  (The Python `str(n).isdigit()` filter is a no-op on the
natural numbers produced by `_FNUM`.) -/
def compact (nums : List Nat) : String :=
  match sortedDedup nums with
  | [] => ""
  | x :: xs =>
    joinComma ((runsAux x x xs).map
      (fun pr => if pr.1 = pr.2 then toString pr.1
                 else toString pr.1 ++ "-" ++ toString pr.2))

/-- First-seen deduplication worker (also the distinct-count of a Python
`set(...)` built from a list). -/
def fsAux {α : Type} [DecidableEq α] (seen : List α) : List α → List α
  | [] => []
  | x :: xs => if x ∈ seen then fsAux seen xs else x :: fsAux (x :: seen) xs

/-- Duplicate-free list of first occurrences. -/
def firstSeen {α : Type} [DecidableEq α] (l : List α) : List α :=
  fsAux [] l

/-- Update of the `pairs` dict in `_group_splices`: append the observation's
left/right fiber indices under the `(lp, rp)` key, inserting it if new. -/
def pairsUpd : List ((String × String) × (List Nat × List Nat)) →
    (String × String) → Nat → Nat →
    List ((String × String) × (List Nat × List Nat))
  | [], k, L, R => [(k, ([L], [R]))]
  | (k', (ls, rs)) :: rest, k, L, R =>
    if k = k' then (k', (ls ++ [L], rs ++ [R])) :: rest
    else (k', (ls, rs)) :: pairsUpd rest k L R

/-- One line of the `pairs` accumulation loop of `_group_splices`
(fiber_trace.py lines 119-127): a line with at least two PMIDs and two fiber
numbers contributes `(pmids[0], pmids[-1])` with `(fnums[0], fnums[-1])`. -/
def spliceStep (pairs : List ((String × String) × (List Nat × List Nat)))
    (s : String) : List ((String × String) × (List Nat × List Nat)) :=
  let pmids := pmidsScan s
  let fnums := fnumsScan s
  if pmids.length ≥ 2 ∧ fnums.length ≥ 2 then
    pairsUpd pairs (pmids.headD "", pmids.getLastD "")
      (fnums.headD 0) (fnums.getLastD 0)
  else pairs

/-- The full `pairs` accumulation of `_group_splices`. -/
def pairsOfSplices (splices : List String) :
    List ((String × String) × (List Nat × List Nat)) :=
  splices.foldl spliceStep []

/-- Python `max(pairs.items(), key=len of left list)`: the first entry with
the greatest number of left observations. -/
def pickMaxPair :
    List ((String × String) × (List Nat × List Nat)) →
    Option ((String × String) × (List Nat × List Nat))
  | [] => none
  | e :: rest =>
    some (rest.foldl (fun best kv =>
      if kv.2.1.length > best.2.1.length then kv else best) e)

/-- Embedding of `fiber_trace._group_splices` (lines 117-132): group raw
splice lines by endpoint pair, keep the pair with the most observations,
compact both fiber-index sets and report `len(set(L))` as the count. -/
def groupSplices (splices : List String) : Option (String × Nat) :=
  if splices.isEmpty then none
  else
    match pickMaxPair (pairsOfSplices splices) with
    | none => none
    | some ((lp, rp), (L, R)) =>
      some ("PMID: " ++ lp ++ ", Aptum ID: .F[" ++ compact L ++
            "] -- Existing Splice(s) -- PMID: " ++ rp ++ ", Aptum ID: .F[" ++
            compact R ++ "]", (firstSeen L).length)

/-- Consecutive naturals `a, a+1, ..., a+n-1` (used to state the compaction
property of C6). -/
def consecFrom (a : Nat) : Nat → List Nat
  | 0 => []
  | Nat.succ n => a :: consecFrom (a + 1) n

/-! ## CA-order construction (`fiber_action._parse_json_for_order`) -/

/-- One classified line of a Connections blob, as seen by the loop of
`_parse_json_for_order` (fiber_action.py lines 141-165): the three regexes
`BOX_HEADER_RE`, `CA_PMD_RE` and `PAIR_ORIENT_RE` are represented by the
constructors (a line matching none of them is `other`). -/
inductive OrderLine where
  | boxHeader (name : String)
  | caLine (pmid : String)
  | orientLine (a b : String)
  | other
deriving DecidableEq

/-- The three dictionaries built by `_parse_json_for_order`. -/
structure OrderState where
  caOrder : CAOrder
  boxes : BoxesByPmid
  orient : PairOrient
deriving DecidableEq

/-- The per-box rank assignment of `_parse_json_for_order` (lines 154-156):
a fresh PMID gets rank `len(order_map)`, a repeat is ignored. -/
def omStep (m : OrderMap) (p : String) : OrderMap :=
  if (lookupA p m).isSome then m else m ++ [(p, m.length)]

/-- The order map a box gets from its CA lines in sequence. -/
def orderMapOf (ps : List String) : OrderMap :=
  ps.foldl omStep []

/-- `boxes_by_pmid.setdefault(pmid, set()).add(box)`. -/
def addBox (pmid box : String) (bp : BoxesByPmid) : BoxesByPmid :=
  match lookupA pmid bp with
  | some bs => setA pmid (addIfNew box bs) bp
  | none => bp ++ [(pmid, [box])]

/-- Assignment `pair_orient[frozenset((a, b))] = (a, b)` (lines 162-163):
the unordered key keeps its first-seen position, the value is overwritten
(so the last observed orientation wins). -/
def setPairKey (po : PairOrient) (a b : String) (v : String × String) :
    PairOrient :=
  match po with
  | [] => [((a, b), v)]
  | ((x, y), w) :: rest =>
    if (x = a ∧ y = b) ∨ (x = b ∧ y = a) then ((x, y), v) :: rest
    else ((x, y), w) :: setPairKey rest a b v

/-- Flush of the current box at a new box header or at blob end (lines
147-148 and 164-165): only a non-empty box name with a non-empty order map
is stored, and only if the box is not already present (first blob wins). -/
def flushBox (st : OrderState) (current : Option String) (om : OrderMap) :
    OrderState :=
  match current with
  | some c =>
    if c ≠ "" ∧ om ≠ [] ∧ (lookupA c st.caOrder).isNone
    then { st with caOrder := st.caOrder ++ [(c, om)] }
    else st
  | none => st

/-- One line of the `_parse_json_for_order` loop (lines 144-163). -/
def lineStep (acc : OrderState × Option String × OrderMap) (ln : OrderLine) :
    OrderState × Option String × OrderMap :=
  match ln with
  | OrderLine.boxHeader name =>
    (flushBox acc.1 acc.2.1 acc.2.2, some name, [])
  | OrderLine.caLine pmid =>
    (match acc.2.1 with
     | some c =>
       if c ≠ "" then
         if (lookupA pmid acc.2.2).isSome then acc
         else ({ acc.1 with boxes := addBox pmid c acc.1.boxes }, some c,
               acc.2.2 ++ [(pmid, acc.2.2.length)])
       else acc
     | none => acc)
  | OrderLine.orientLine a b =>
    ({ acc.1 with orient := setPairKey acc.1.orient a b (a, b) }, acc.2.1, acc.2.2)
  | OrderLine.other => acc

/-- One blob of `_parse_json_for_order`: fold the lines from a fresh
`current_box = None, order_map = {}` and flush the last box. -/
def blobStep (st : OrderState) (lines : List OrderLine) : OrderState :=
  let r := lines.foldl lineStep (st, none, [])
  flushBox r.1 r.2.1 r.2.2

/-- Embedding of `fiber_action._parse_json_for_order` (lines 129-167) over
pre-classified blob lines. -/
def parseJsonForOrder (blobs : List (List OrderLine)) : OrderState :=
  blobs.foldl blobStep ⟨[], [], []⟩

/-- Index of the first occurrence of an element. -/
def posOfFirst {α : Type} [DecidableEq α] (x : α) : List α → Option Nat
  | [] => none
  | y :: ys => if x = y then some 0 else (posOfFirst x ys).map (· + 1)

/-- Ranks attached to a list of PMIDs starting at `n`. -/
def enumFrom (n : Nat) : List String → List (String × Nat)
  | [] => []
  | x :: xs => (x, n) :: enumFrom (n + 1) xs

/-! ## JSON model and Connections discovery (C8) -/

mutual
/-- JSON values (the mutual nesting keeps all recursion structural). -/
inductive JsonVal where
  | str (s : String)
  | num (n : Int)
  | bool (b : Bool)
  | null
  | obj (fs : JsonFields)
  | arr (xs : JsonElems)
deriving DecidableEq
/-- Key-value fields of a JSON object, in document order. -/
inductive JsonFields where
  | nil
  | cons (k : String) (v : JsonVal) (rest : JsonFields)
deriving DecidableEq
/-- Elements of a JSON array, in document order. -/
inductive JsonElems where
  | nil
  | cons (v : JsonVal) (rest : JsonElems)
deriving DecidableEq
end

mutual
/-- Embedding of `parse_device_sheet.gather_connections` (lines 34-47): walk
the whole document; a `Connections` key with a string value is collected,
anything else is recursed into.  `clean_json._find_connections_recursive`
(lines 54-65) has the same body. -/
def gatherConnections : JsonVal → List String
  | JsonVal.obj fs => gatherFields fs
  | JsonVal.arr xs => gatherElems xs
  | _ => []
/-- Field walk of `gather_connections`. -/
def gatherFields : JsonFields → List String
  | JsonFields.nil => []
  | JsonFields.cons k v rest =>
    (if k = "Connections" then
       match v with
       | JsonVal.str s => [s]
       | _ => gatherConnections v
     else gatherConnections v) ++ gatherFields rest
/-- Array walk of `gather_connections`. -/
def gatherElems : JsonElems → List String
  | JsonElems.nil => []
  | JsonElems.cons v rest => gatherConnections v ++ gatherElems rest
end

mutual
/-- All key-value pairs of a document in document order; the reference
collector used to state what "string values attached to a key named
Connections at any nesting depth" means. -/
def pairsVal : JsonVal → List (String × JsonVal)
  | JsonVal.obj fs => pairsFields fs
  | JsonVal.arr xs => pairsElems xs
  | _ => []
/-- Field walk of `pairsVal`. -/
def pairsFields : JsonFields → List (String × JsonVal)
  | JsonFields.nil => []
  | JsonFields.cons k v rest => (k, v) :: (pairsVal v ++ pairsFields rest)
/-- Array walk of `pairsVal`. -/
def pairsElems : JsonElems → List (String × JsonVal)
  | JsonElems.nil => []
  | JsonElems.cons v rest => pairsVal v ++ pairsElems rest
end

/-- A pair contributes its value iff the key is literally `Connections` and
the value is a string. -/
def asConnStr (kv : String × JsonVal) : Option String :=
  if kv.1 = "Connections" then
    match kv.2 with
    | JsonVal.str s => some s
    | _ => none
  else none

/-- The claim's reference set: every string value under a `Connections` key,
at any depth, in document order (duplicates kept). -/
def connStringsSpec (j : JsonVal) : List String :=
  (pairsVal j).filterMap asConnStr

/-- JSON object field lookup (`dict.get`). -/
def lookupF (k : String) : JsonFields → Option JsonVal
  | JsonFields.nil => none
  | JsonFields.cons k2 v rest => if k = k2 then some v else lookupF k rest

/-- Item loop of `_get_connection_blobs` (fiber_trace.py lines 54-58): a
non-dict item raises `AttributeError`, which the enclosing `try` swallows,
keeping the blobs collected so far; a blank-after-strip string is skipped. -/
def collectConn : JsonElems → List String
  | JsonElems.nil => []
  | JsonElems.cons (JsonVal.obj fs) rest =>
    (match lookupF "Connections" fs with
     | some (JsonVal.str s) =>
       if pyStrip s.data ≠ [] then s :: collectConn rest else collectConn rest
     | _ => collectConn rest)
  | JsonElems.cons _ _ => []

/-- Pre-deduplication blob list of `_get_connection_blobs` (lines 48-60):
only the fixed path `payload["Report: Splice Details"][0][""]` is searched. -/
def connBlobsRaw (payload : JsonVal) : List String :=
  match payload with
  | JsonVal.obj fs =>
    (match lookupF "Report: Splice Details" fs with
     | some (JsonVal.arr (JsonElems.cons first _)) =>
       (match first with
        | JsonVal.obj fs2 =>
          (match lookupF "" fs2 with
           | some (JsonVal.arr items) => collectConn items
           | _ => [])
        | _ => [])
     | _ => [])
  | _ => []

/-- Embedding of `fiber_trace._get_connection_blobs` (lines 48-65): the
fixed-path blobs with first-seen duplicates removed. -/
def getConnectionBlobs (payload : JsonVal) : List String :=
  firstSeen (connBlobsRaw payload)

/-- Document with the same `Connections` blob twice (for the C8
counterexample). -/
def c8docDup : JsonVal :=
  JsonVal.arr (JsonElems.cons
    (JsonVal.obj (JsonFields.cons "Connections" (JsonVal.str "x") JsonFields.nil))
    (JsonElems.cons
      (JsonVal.obj (JsonFields.cons "Connections" (JsonVal.str "x") JsonFields.nil))
      JsonElems.nil))

/-- Document whose `Connections` key sits outside the fixed path searched by
`_get_connection_blobs`. -/
def c8docNested : JsonVal :=
  JsonVal.obj (JsonFields.cons "Top"
    (JsonVal.obj (JsonFields.cons "Connections" (JsonVal.str "y") JsonFields.nil))
    JsonFields.nil)

/-! ## Action insertion (`fiber_trace.insert_actions`, lines 238-299) -/

/-- One row of the Fibre Action table (the columns `_classify_and_filter`
keeps). -/
structure ActRow where
  action : String
  descr : String
  sap : String
deriving DecidableEq

/-- Embedding of `fiber_trace._label_from_actiondesc` (lines 221-225). -/
def labelFromActiondesc (action desc : String) : Option String :=
  if containsLow "remove" action || containsLow "break" desc then
    some "Break Splice"
  else if containsLow "add" action || containsLow "splice" desc then
    some "Splice Required"
  else none

/-- Embedding of the row mask of `_classify_and_filter` (lines 232-236); the
column picking of `_pick_col` is represented by the structured rows. -/
def classifyAndFilter (acts : List ActRow) : List ActRow :=
  acts.filter (fun r =>
    containsLow "remove" r.action || containsLow "add" r.action ||
    containsLow "break" r.descr || containsLow "splice" r.descr)

/-- Anchored match of `_ACTION_PMIDS` (fiber_trace.py line 194):
`\b(token+)\s*\[[^\]]+\]`; `prevWord` is the wordness of the previous
character for the `\b` check.  Returns the captured token and the
characters consumed. -/
def actionPmidAt (prevWord : Bool) (s : List Char) : Option (List Char × Nat) :=
  match s with
  | c :: _ =>
    if isWordChar c = prevWord then none
    else
      let tok := s.takeWhile isTokChar
      if tok.isEmpty then none
      else
        let r1 := s.dropWhile isTokChar
        let ws := r1.takeWhile isPySpace
        let r2 := r1.dropWhile isPySpace
        match r2 with
        | '[' :: r3 =>
          let content := r3.takeWhile (fun c2 => c2 ≠ ']')
          (match r3.dropWhile (fun c2 => c2 ≠ ']') with
           | ']' :: _ =>
             if content.isEmpty then none
             else some (tok, tok.length + ws.length + 1 + content.length + 1)
           | _ => none)
        | _ => none
  | [] => none

/-- Worker for `_ACTION_PMIDS.finditer`. -/
def actionPmidsGo : Bool → List Char → Nat → List (List Char)
  | _, [], _ => []
  | _, c :: cs, Nat.succ k => actionPmidsGo (isWordChar c) cs k
  | pw, c :: cs, 0 =>
    match actionPmidAt pw (c :: cs) with
    | some (tok, consumed) => tok :: actionPmidsGo (isWordChar c) cs (consumed - 1)
    | none => actionPmidsGo (isWordChar c) cs 0

/-- Embedding of `fiber_trace._pmids_loose_for_action` (lines 195-203):
bracketed tokens uppercased, then explicit `PMID:` tokens, deduplicated
keeping the first occurrence. -/
def pmidsLooseForAction (desc : String) : List String :=
  firstSeen
    ((actionPmidsGo false desc.data 0).map (fun t => String.mk (t.map Char.toUpper))
      ++ pmidsScan desc)

/-- Anchored match of `_RANGE` (fiber_trace.py line 214):
`\[([0-9]+)(?:\s*-\s*([0-9]+))?\]`; returns `(a, b)` with `b = a` for a
singleton, plus the characters consumed. -/
def rangeAt (s : List Char) : Option ((Nat × Nat) × Nat) :=
  match s with
  | '[' :: r1 =>
    let d1 := r1.takeWhile Char.isDigit
    if d1.isEmpty then none
    else
      let r2 := r1.dropWhile Char.isDigit
      let r3 := r2.dropWhile isPySpace
      (match r3 with
       | '-' :: r4 =>
         let r5 := r4.dropWhile isPySpace
         let d2 := r5.takeWhile Char.isDigit
         if d2.isEmpty then
           (match r2 with
            | ']' :: _ => some ((digitsToNat d1, digitsToNat d1), 1 + d1.length + 1)
            | _ => none)
         else
           (match r5.dropWhile Char.isDigit with
            | ']' :: _ => some ((digitsToNat d1, digitsToNat d2),
                1 + d1.length + (r2.length - r3.length) + 1 +
                  (r4.length - r5.length) + d2.length + 1)
            | _ => none)
       | _ =>
         (match r2 with
          | ']' :: _ => some ((digitsToNat d1, digitsToNat d1), 1 + d1.length + 1)
          | _ => none))
  | _ => none

/-- Worker for `_RANGE.findall`. -/
def rangesGo : List Char → Nat → List (Nat × Nat)
  | [], _ => []
  | _ :: cs, Nat.succ k => rangesGo cs k
  | c :: cs, 0 =>
    match rangeAt (c :: cs) with
    | some (pr, consumed) => pr :: rangesGo cs (consumed - 1)
    | none => rangesGo cs 0

/-- All `[a]` / `[a-b]` ranges of a description. -/
def rangesScan (s : String) : List (Nat × Nat) :=
  rangesGo s.data 0

/-- Embedding of `fiber_trace._fibercount` (lines 216-219): the largest
`b - a + 1` over the ranges (over the integers, as in Python). -/
def fibercount (s : String) : Option Int :=
  match rangesScan s with
  | [] => none
  | r :: rs =>
    some ((rs.map (fun pr => (pr.2 : Int) - (pr.1 : Int) + 1)).foldl max
      ((r.2 : Int) - (r.1 : Int) + 1))

/-- The row `insert_actions` builds (lines 272-275); `_fibercount(desc) or
""` leaves the cell empty when the count is `None` or the falsy `0`. -/
def newActionRow (label desc action : String) : List String :=
  [label, desc,
   (match fibercount desc with
    | some v => if v = 0 then "" else toString v
    | none => ""),
   action, "", "", "", "", "", ""]

/-- The block metadata `insert_actions` reads (`m["pmids"]`). -/
structure BlockMeta where
  pmids : List String
deriving DecidableEq

/-- The `Detail Item` column of a trace row. -/
def detailOf (r : List String) : String :=
  r.headD ""

/-- Best-block selection of `insert_actions` (lines 263-268): the first
block index with the strictly largest PMID overlap, with the running best
count. -/
def bestBlock (pmidset : List String) (meta : List BlockMeta) :
    Option Nat × Nat :=
  meta.enum.foldl (fun acc bm =>
    let ov := ((firstSeen pmidset).filter (fun p => decide (p ∈ bm.2.pmids))).length
    if ov > acc.2 then (some bm.1, ov) else acc) (none, 0)

/-- First loop of `insert_actions` (lines 252-280): per surviving action
row, compute the label, the loose PMID set and the best block; collect
`(block index, new row)` placements and the inserted/adds/removes counters. -/
def placeActions (meta : List BlockMeta) (acts : List ActRow) :
    List (Nat × List String) × (Nat × Nat × Nat) :=
  acts.foldl (fun acc r =>
    match labelFromActiondesc r.action r.descr with
    | none => acc
    | some label =>
      let pmidset := pmidsLooseForAction r.descr
      if pmidset.isEmpty then acc
      else
        match bestBlock pmidset meta with
        | (some bi, _) =>
          ((acc.1 ++ [(bi, newActionRow label r.descr r.action)]),
           (acc.2.1 + 1,
            (if containsLow "remove" r.action then acc.2.2.1 + 1 else acc.2.2.1),
            (if containsLow "remove" r.action then acc.2.2.2
             else if containsLow "add" r.action then acc.2.2.2 + 1
             else acc.2.2.2)))
        | (none, _) => acc) ([], (0, 0, 0))

/-- Descending insertion for `sorted(addmap.keys(), reverse=True)`. -/
def insDescNat (n : Nat) : List Nat → List Nat
  | [] => [n]
  | m :: ms => if n ≥ m then n :: m :: ms else m :: insDescNat n ms

/-- Keys sorted in decreasing order. -/
def sortDescNat (l : List Nat) : List Nat :=
  l.foldr insDescNat []

/-- Last row index of the block slice `out[start..endp]` whose `Detail Item`
equals `d` (pandas `block[block["Detail Item"]==d].index[-1]`). -/
def lastIdxWithin (out : List (List String)) (start endp : Nat) (d : String) :
    Option Nat :=
  ((((out.enum.drop start).take (endp + 1 - start)).filter
    (fun p => detailOf p.2 = d)).map (fun p => p.1)).getLast?

/-- Insertion position for block `bi` (lines 283-293): after the last
`Cable[attach]` row, else after the last `Equipment` row, else `start + 1`. -/
def insertPos (out : List (List String)) (bi : Nat)
    (ranges : List (Nat × Nat)) : Nat :=
  let se := ranges.getD bi (0, 0)
  match lastIdxWithin out se.1 se.2 "Cable[attach]" with
  | some j => j + 1
  | none =>
    match lastIdxWithin out se.1 se.2 "Equipment" with
    | some j => j + 1
    | none => se.1 + 1

/-- One block's insertion (lines 283-297): splice the block's new rows into
the table and the matching `None` entries into the gmaps list at the same
position. -/
def applyInsert (ranges : List (Nat × Nat))
    (placements : List (Nat × List String))
    (st : List (List String) × List (Option String)) (bi : Nat) :
    List (List String) × List (Option String) :=
  let rowsb := (placements.filter (fun p => p.1 = bi)).map (fun p => p.2)
  let k := insertPos st.1 bi ranges
  (st.1.take k ++ rowsb ++ st.1.drop k,
   st.2.take k ++ List.replicate rowsb.length none ++ st.2.drop k)

/-- Embedding of `fiber_trace.insert_actions` (lines 238-299). -/
def insertActions (df : List (List String)) (gmaps : List (Option String))
    (ranges : List (Nat × Nat)) (meta : List BlockMeta)
    (actions : Option (List ActRow)) :
    List (List String) × List (Option String) × (Nat × Nat × Nat) :=
  match actions with
  | none => (df, gmaps, (0, 0, 0))
  | some acts0 =>
    if acts0.isEmpty then (df, gmaps, (0, 0, 0))
    else
      let acts := classifyAndFilter acts0
      if acts.isEmpty then (df, gmaps, (0, 0, 0))
      else
        let pl := placeActions meta acts
        let keys := sortDescNat (firstSeen (pl.1.map Prod.fst))
        let fin := keys.foldl (applyInsert ranges pl.1) (df, gmaps)
        (fin.1, fin.2, pl.2)

/-- Frame property tracked through the insertion loop: the original
row/gmap pairs survive in order, the two lists stay aligned, and every
other pair carries a `none` gmap. -/
def InsInv (df : List (List String)) (gmaps : List (Option String))
    (st : List (List String) × List (Option String)) : Prop :=
  (df.zip gmaps).Sublist (st.1.zip st.2) ∧
  st.1.length = st.2.length ∧
  ∀ pr ∈ st.1.zip st.2, pr ∈ df.zip gmaps ∨ pr.2 = none

/-! ## Theorems -/

theorem replGo_cons_succ (p r : List Char) (a : Char) (cs : List Char) (k : Nat) :
    replGo p r (a :: cs) (Nat.succ k) = replGo p r cs k := rfl

theorem replGo_cons_zero (p r : List Char) (a : Char) (cs : List Char) :
    replGo p r (a :: cs) 0 =
      if p ≠ [] ∧ leadsWith p (a :: cs) then r ++ replGo p r cs (p.length - 1)
      else a :: replGo p r cs 0 := rfl

theorem replaceAll_cons (p r : List Char) (a : Char) (cs : List Char) :
    replaceAll p r (a :: cs) =
      if p ≠ [] ∧ leadsWith p (a :: cs) then r ++ replGo p r cs (p.length - 1)
      else a :: replaceAll p r cs := rfl

theorem leadsWith_append (q a b : List Char) (h : leadsWith q a = true) :
    leadsWith q (a ++ b) = true := by
  induction q generalizing a with
  | nil => simp [leadsWith]
  | cons x xs ih =>
    cases a with
    | nil => simp [leadsWith] at h
    | cons c cs =>
      simp only [leadsWith, Bool.and_eq_true, decide_eq_true_eq] at h ⊢
      exact ⟨h.1, ih cs h.2⟩

theorem hasOccur_append_right (q a b : List Char) (h : hasOccur q a = true) :
    hasOccur q (a ++ b) = true := by
  induction a with
  | nil =>
    simp [hasOccur, List.isEmpty_iff] at h
    subst h
    cases b <;> simp [hasOccur, leadsWith]
  | cons c cs ih =>
    simp only [hasOccur, Bool.or_eq_true] at h
    rcases h with h | h
    · simp only [List.cons_append, hasOccur, Bool.or_eq_true]
      exact Or.inl (leadsWith_append _ _ _ h)
    · simp only [List.cons_append, hasOccur, Bool.or_eq_true]
      exact Or.inr (ih h)

theorem hasOccur_dropWhile (q : List Char) (p : Char → Bool) (l : List Char)
    (h : hasOccur q (l.dropWhile p) = true) : hasOccur q l = true := by
  induction l with
  | nil => simpa [List.dropWhile] using h
  | cons c cs ih =>
    by_cases hc : p c
    · rw [List.dropWhile_cons_of_pos hc] at h
      simp only [hasOccur, Bool.or_eq_true]
      exact Or.inr (ih h)
    · rwa [List.dropWhile_cons_of_neg (by simpa using hc)] at h

theorem dropWhile_is_tail_part (p : Char → Bool) (l : List Char) :
    ∃ v, l = v ++ l.dropWhile p := by
  induction l with
  | nil => exact ⟨[], rfl⟩
  | cons c cs ih =>
    by_cases hc : p c
    · rcases ih with ⟨v, hv⟩
      rw [List.dropWhile_cons_of_pos hc]
      exact ⟨c :: v, by simpa using hv⟩
    · rw [List.dropWhile_cons_of_neg (by simpa using hc)]
      exact ⟨[], rfl⟩

theorem hasOccur_stripTrail (q l : List Char)
    (h : hasOccur q (stripTrail l) = true) : hasOccur q l = true := by
  unfold stripTrail stripLead at h
  rcases dropWhile_is_tail_part isPySpace l.reverse with ⟨v, hv⟩
  have hl : l = (l.reverse.dropWhile isPySpace).reverse ++ v.reverse := by
    have := congrArg List.reverse hv
    simpa using this
  rw [hl]
  exact hasOccur_append_right _ _ _ h

theorem hasOccur_pyStrip (q l : List Char)
    (h : hasOccur q (pyStrip l) = true) : hasOccur q l = true := by
  unfold pyStrip stripLead at h
  exact hasOccur_dropWhile _ _ _ (hasOccur_stripTrail _ _ h)

theorem dropWhile_head_false (p : Char → Bool) (l : List Char) (x : Char)
    (xs : List Char) (h : l.dropWhile p = x :: xs) : p x = false := by
  induction l with
  | nil => simp [List.dropWhile] at h
  | cons c cs ih =>
    by_cases hc : p c
    · rw [List.dropWhile_cons_of_pos hc] at h
      exact ih h
    · rw [List.dropWhile_cons_of_neg (by simpa using hc)] at h
      cases h
      simpa using hc

theorem dropWhile_twice (p : Char → Bool) (l : List Char) :
    (l.dropWhile p).dropWhile p = l.dropWhile p := by
  cases hd : l.dropWhile p with
  | nil => rfl
  | cons x xs =>
    have hx := dropWhile_head_false p l x xs hd
    rw [List.dropWhile_cons_of_neg (by simp [hx])]

theorem stripTrail_stripTrail (l : List Char) :
    stripTrail (stripTrail l) = stripTrail l := by
  unfold stripTrail stripLead
  rw [List.reverse_reverse, dropWhile_twice]

theorem stripLead_stripTrail_stripLead (l : List Char) :
    stripLead (stripTrail (stripLead l)) = stripTrail (stripLead l) := by
  cases ht : stripTrail (stripLead l) with
  | nil => simp [stripLead, List.dropWhile]
  | cons x xs =>
    rcases dropWhile_is_tail_part isPySpace (stripLead l).reverse with ⟨v, hv⟩
    have hl : stripLead l = stripTrail (stripLead l) ++ v.reverse := by
      have h2 := congrArg List.reverse hv
      simp only [List.reverse_reverse, List.reverse_append] at h2
      show stripLead l = ((stripLead l).reverse.dropWhile isPySpace).reverse ++ v.reverse
      exact h2
    rw [ht] at hl
    have hx : isPySpace x = false := by
      cases hsl : stripLead l with
      | nil => rw [hsl] at hl; simp at hl
      | cons y ys =>
        have hy : isPySpace y = false := dropWhile_head_false _ _ _ _ hsl
        rw [hsl] at hl
        have : y = x := by
          have := congrArg (fun t => t.head?) hl
          simpa using this
        rwa [this] at hy
    unfold stripLead
    rw [List.dropWhile_cons_of_neg (by simp [hx])]

theorem pyStrip_pyStrip (l : List Char) : pyStrip (pyStrip l) = pyStrip l := by
  unfold pyStrip
  rw [stripLead_stripTrail_stripLead, stripTrail_stripTrail]

theorem replaceAll_of_no_occur (p r s : List Char)
    (h : hasOccur p s = false) : replaceAll p r s = s := by
  induction s with
  | nil => rfl
  | cons c cs ih =>
    simp only [hasOccur, Bool.or_eq_false_iff] at h
    unfold replaceAll replGo
    rw [if_neg]
    · have := ih h.2
      unfold replaceAll at this
      rw [this]
    · rintro ⟨-, hlw⟩
      rw [h.1] at hlw
      cases hlw

theorem leadsWith_replaceAll (p : List Char) (c : Char) (s q : List Char)
    (hq : ∀ x ∈ q, x ≠ c)
    (h : leadsWith q (replaceAll p [c] s) = true) : leadsWith q s = true := by
  induction s generalizing q with
  | nil =>
    unfold replaceAll replGo at h
    exact h
  | cons a cs ih =>
    unfold replaceAll replGo at h
    by_cases hm : p ≠ [] ∧ leadsWith p (a :: cs)
    · rw [if_pos hm] at h
      cases q with
      | nil => simp [leadsWith]
      | cons x xs =>
        simp only [List.singleton_append, leadsWith, Bool.and_eq_true,
          decide_eq_true_eq] at h
        exact absurd h.1 (hq x (by simp))
    · rw [if_neg hm] at h
      cases q with
      | nil => simp [leadsWith]
      | cons x xs =>
        simp only [leadsWith, Bool.and_eq_true, decide_eq_true_eq] at h ⊢
        refine ⟨h.1, ih xs (fun y hy => hq y (by simp [hy])) ?_⟩
        exact h.2

theorem hasOccur_replGo_self (p : List Char) (c : Char)
    (hp : p ≠ []) (hc : c ∉ p) :
    ∀ (s : List Char) (k : Nat), hasOccur p (replGo p [c] s k) = false := by
  intro s
  induction s with
  | nil => intro k; simp [replGo, hasOccur, List.isEmpty_iff, hp]
  | cons a cs ih =>
    intro k
    cases k with
    | succ k => exact ih k
    | zero =>
      by_cases hm : p ≠ [] ∧ leadsWith p (a :: cs)
      · rw [replGo_cons_zero, if_pos hm]
        simp only [List.singleton_append, hasOccur, Bool.or_eq_false_iff]
        constructor
        · cases p with
          | nil => exact absurd rfl hp
          | cons x xs =>
            simp only [leadsWith, Bool.and_eq_false_iff]
            left
            simp only [decide_eq_false_iff_not]
            intro hxc
            exact hc (by simp [hxc])
        · exact ih (p.length - 1)
      · rw [replGo_cons_zero, if_neg hm]
        simp only [hasOccur, Bool.or_eq_false_iff]
        constructor
        · by_contra hlw
          simp only [Bool.not_eq_false] at hlw
          have hall : ∀ x ∈ p, x ≠ c := by
            intro x hx hxc
            exact hc (hxc ▸ hx)
          have hrepl : (a :: replGo p [c] cs 0) = replaceAll p [c] (a :: cs) := by
            rw [replaceAll_cons, if_neg hm]; rfl
          rw [hrepl] at hlw
          exact hm ⟨hp, leadsWith_replaceAll p c (a :: cs) p hall hlw⟩
        · exact ih 0

theorem hasOccur_replGo_other (p : List Char) (c : Char) (q : List Char)
    (hq : q ≠ []) (hc : c ∉ q) :
    ∀ (s : List Char) (k : Nat), hasOccur q s = false →
      hasOccur q (replGo p [c] s k) = false := by
  intro s
  induction s with
  | nil => intro k _; simp [replGo, hasOccur, List.isEmpty_iff, hq]
  | cons a cs ih =>
    intro k hfree
    simp only [hasOccur, Bool.or_eq_false_iff] at hfree
    cases k with
    | succ k => exact ih k hfree.2
    | zero =>
      by_cases hm : p ≠ [] ∧ leadsWith p (a :: cs)
      · rw [replGo_cons_zero, if_pos hm]
        simp only [List.singleton_append, hasOccur, Bool.or_eq_false_iff]
        constructor
        · cases q with
          | nil => exact absurd rfl hq
          | cons x xs =>
            simp only [leadsWith, Bool.and_eq_false_iff]
            left
            simp only [decide_eq_false_iff_not]
            intro hxc
            exact hc (by simp [hxc])
        · exact ih (p.length - 1) hfree.2
      · rw [replGo_cons_zero, if_neg hm]
        simp only [hasOccur, Bool.or_eq_false_iff]
        constructor
        · by_contra hlw
          simp only [Bool.not_eq_false] at hlw
          have hall : ∀ x ∈ q, x ≠ c := by
            intro x hx hxc
            exact hc (hxc ▸ hx)
          have hrepl : (a :: replGo p [c] cs 0) = replaceAll p [c] (a :: cs) := by
            rw [replaceAll_cons, if_neg hm]; rfl
          rw [hrepl] at hlw
          have := leadsWith_replaceAll p c (a :: cs) q hall hlw
          rw [hfree.1] at this
          cases this
        · exact ih 0 hfree.2

theorem hasOccur_replaceAll_self (p : List Char) (c : Char) (s : List Char)
    (hp : p ≠ []) (hc : c ∉ p) :
    hasOccur p (replaceAll p [c] s) = false :=
  hasOccur_replGo_self p c hp hc s 0

theorem hasOccur_replaceAll_other (p : List Char) (c : Char) (q s : List Char)
    (hq : q ≠ []) (hc : c ∉ q) (hfree : hasOccur q s = false) :
    hasOccur q (replaceAll p [c] s) = false :=
  hasOccur_replGo_other p c q hq hc s 0 hfree

theorem hasOccur_pyStrip_free (q l : List Char) (h : hasOccur q l = false) :
    hasOccur q (pyStrip l) = false := by
  by_contra hne
  simp only [Bool.not_eq_false] at hne
  rw [hasOccur_pyStrip q l hne] at h
  cases h

theorem decodeL_tokenFree (l : List Char) :
    hasOccur "<COMMA>".data (decodeL l) = false ∧
    hasOccur "<COLON>".data (decodeL l) = false ∧
    hasOccur "<OPEN>".data (decodeL l) = false ∧
    hasOccur "<CLOSE>".data (decodeL l) = false ∧
    hasOccur "<AND>".data (decodeL l) = false ∧
    hasOccur "\\n".data (decodeL l) = false := by
  have h11 : hasOccur "<COMMA>".data (dstage1 l) = false :=
    hasOccur_replaceAll_self _ _ _ (by decide) (by decide)
  have h12 : hasOccur "<COMMA>".data (dstage2 l) = false :=
    hasOccur_replaceAll_other _ _ _ _ (by decide) (by decide) h11
  have h13 : hasOccur "<COMMA>".data (dstage3 l) = false :=
    hasOccur_replaceAll_other _ _ _ _ (by decide) (by decide) h12
  have h14 : hasOccur "<COMMA>".data (dstage4 l) = false :=
    hasOccur_replaceAll_other _ _ _ _ (by decide) (by decide) h13
  have h15 : hasOccur "<COMMA>".data (dstage5 l) = false :=
    hasOccur_replaceAll_other _ _ _ _ (by decide) (by decide) h14
  have h16 : hasOccur "<COMMA>".data (dstage6 l) = false :=
    hasOccur_replaceAll_other _ _ _ _ (by decide) (by decide) h15
  have h22 : hasOccur "<COLON>".data (dstage2 l) = false :=
    hasOccur_replaceAll_self _ _ _ (by decide) (by decide)
  have h23 : hasOccur "<COLON>".data (dstage3 l) = false :=
    hasOccur_replaceAll_other _ _ _ _ (by decide) (by decide) h22
  have h24 : hasOccur "<COLON>".data (dstage4 l) = false :=
    hasOccur_replaceAll_other _ _ _ _ (by decide) (by decide) h23
  have h25 : hasOccur "<COLON>".data (dstage5 l) = false :=
    hasOccur_replaceAll_other _ _ _ _ (by decide) (by decide) h24
  have h26 : hasOccur "<COLON>".data (dstage6 l) = false :=
    hasOccur_replaceAll_other _ _ _ _ (by decide) (by decide) h25
  have h33 : hasOccur "<OPEN>".data (dstage3 l) = false :=
    hasOccur_replaceAll_self _ _ _ (by decide) (by decide)
  have h34 : hasOccur "<OPEN>".data (dstage4 l) = false :=
    hasOccur_replaceAll_other _ _ _ _ (by decide) (by decide) h33
  have h35 : hasOccur "<OPEN>".data (dstage5 l) = false :=
    hasOccur_replaceAll_other _ _ _ _ (by decide) (by decide) h34
  have h36 : hasOccur "<OPEN>".data (dstage6 l) = false :=
    hasOccur_replaceAll_other _ _ _ _ (by decide) (by decide) h35
  have h44 : hasOccur "<CLOSE>".data (dstage4 l) = false :=
    hasOccur_replaceAll_self _ _ _ (by decide) (by decide)
  have h45 : hasOccur "<CLOSE>".data (dstage5 l) = false :=
    hasOccur_replaceAll_other _ _ _ _ (by decide) (by decide) h44
  have h46 : hasOccur "<CLOSE>".data (dstage6 l) = false :=
    hasOccur_replaceAll_other _ _ _ _ (by decide) (by decide) h45
  have h55 : hasOccur "<AND>".data (dstage5 l) = false :=
    hasOccur_replaceAll_self _ _ _ (by decide) (by decide)
  have h56 : hasOccur "<AND>".data (dstage6 l) = false :=
    hasOccur_replaceAll_other _ _ _ _ (by decide) (by decide) h55
  have h66 : hasOccur "\\n".data (dstage6 l) = false :=
    hasOccur_replaceAll_self _ _ _ (by decide) (by decide)
  exact ⟨hasOccur_pyStrip_free _ _ h16, hasOccur_pyStrip_free _ _ h26,
    hasOccur_pyStrip_free _ _ h36, hasOccur_pyStrip_free _ _ h46,
    hasOccur_pyStrip_free _ _ h56, hasOccur_pyStrip_free _ _ h66⟩

theorem decodeL_stages_id (l : List Char)
    (f1 : hasOccur "<COMMA>".data l = false)
    (f2 : hasOccur "<COLON>".data l = false)
    (f3 : hasOccur "<OPEN>".data l = false)
    (f4 : hasOccur "<CLOSE>".data l = false)
    (f5 : hasOccur "<AND>".data l = false)
    (f6 : hasOccur "\\n".data l = false) :
    dstage6 l = l := by
  have e1 : dstage1 l = l := replaceAll_of_no_occur _ _ _ f1
  have e2 : dstage2 l = l := by
    show replaceAll "<COLON>".data [':'] (dstage1 l) = l
    rw [e1]
    exact replaceAll_of_no_occur _ _ _ f2
  have e3 : dstage3 l = l := by
    show replaceAll "<OPEN>".data ['('] (dstage2 l) = l
    rw [e2]
    exact replaceAll_of_no_occur _ _ _ f3
  have e4 : dstage4 l = l := by
    show replaceAll "<CLOSE>".data [')'] (dstage3 l) = l
    rw [e3]
    exact replaceAll_of_no_occur _ _ _ f4
  have e5 : dstage5 l = l := by
    show replaceAll "<AND>".data ['&'] (dstage4 l) = l
    rw [e4]
    exact replaceAll_of_no_occur _ _ _ f5
  show replaceAll "\\n".data ['\n'] (dstage5 l) = l
  rw [e5]
  exact replaceAll_of_no_occur _ _ _ f6

theorem decodeL_decodeL (l : List Char) : decodeL (decodeL l) = decodeL l := by
  obtain ⟨g1, g2, g3, g4, g5, g6⟩ := decodeL_tokenFree l
  show pyStrip (dstage6 (decodeL l)) = decodeL l
  rw [decodeL_stages_id (decodeL l) g1 g2 g3 g4 g5 g6]
  show pyStrip (pyStrip (dstage6 l)) = pyStrip (dstage6 l)
  exact pyStrip_pyStrip _

/-- C9.  The Token Decoder (`fiber_trace._decode`) is idempotent:
`decode(decode(x)) == decode(x)` for every input string; and a string that
contains none of the known placeholder tokens passes through unchanged apart
from the specified normalization (the surrounding-whitespace strip). -/
theorem C9_token_decoder_idempotent :
    (∀ s : String, decodeText (decodeText s) = decodeText s) ∧
    (∀ s : String, tokenFreeText s → decodeText s = stripText s) := by
  constructor
  · intro s
    exact congrArg String.mk (decodeL_decodeL s.data)
  · intro s hfree
    obtain ⟨f1, f2, f3, f4, f5, f6⟩ := hfree
    show String.mk (pyStrip (dstage6 s.data)) = String.mk (pyStrip s.data)
    rw [decodeL_stages_id s.data f1 f2 f3 f4 f5 f6]

/-- Witness for C9 at concrete inputs: an encoded string decodes the same the
second time, and a token-free string is only stripped. -/
theorem C9_token_decoder_idempotent_witness :
    decodeText (decodeText "a<COMMA> b\\n ") = decodeText "a<COMMA> b\\n " ∧
    (tokenFreeText " plain text " ∧
      decodeText " plain text " = stripText " plain text ") := by
  refine ⟨C9_token_decoder_idempotent.1 ("a<COMMA> b\\n "), by decide,
    C9_token_decoder_idempotent.2 (" plain text ") (by decide)⟩

/-- C1.  Explicit common-box ordering: when the description has a trailing
`Box - Box` hint with equal sides and that box's CA order map contains both
endpoint PMIDs, `_normalize_desc` puts the endpoint with the smaller
`sequence_index` on the left (swapping the fiber ranges along with the
PMIDs) and keeps the location tail. -/
theorem C1_explicit_common_box_ordering
    (co : CAOrder) (bp : BoxesByPmid) (po : PairOrient)
    (action desc : String) (m : PairMatch) (L : String) (om : OrderMap)
    (ia ib : Nat)
    (hfp : findPair desc = some m)
    (htail : pickLocationTail desc = (L, L))
    (hL : L ≠ "")
    (hbox : lookupA L co = some om)
    (hA : lookupA m.A om = some ia)
    (hB : lookupA m.B om = some ib) :
    (ib < ia →
      normalizeDesc action desc co bp po =
        verbFromAction action ++ " " ++ m.B ++ " [" ++ m.Br ++ "] " ++ m.A ++
          " [" ++ m.Ar ++ "]" ++ " " ++ L ++ " - " ++ L) ∧
    (ia ≤ ib →
      normalizeDesc action desc co bp po =
        verbFromAction action ++ " " ++ m.A ++ " [" ++ m.Ar ++ "] " ++ m.B ++
          " [" ++ m.Br ++ "]" ++ " " ++ L ++ " - " ++ L) := by
  have hhint : pickedHint desc = some L := by
    unfold pickedHint
    rw [htail]
    simp [hL]
  have hcb : findCommonBox m.A m.B co bp (some L) = some L := by
    unfold findCommonBox
    simp [hL, hbox, hA, hB]
  have hop : orientPair m.A m.Ar m.B m.Br (some L) co bp po =
      if ib < ia then (m.B, m.Br, m.A, m.Ar) else (m.A, m.Ar, m.B, m.Br) := by
    unfold orientPair
    rw [hcb]
    simp [hbox, hA, hB]
  constructor
  · intro hlt
    simp only [normalizeDesc, hfp, htail, hhint, hop, if_pos hlt]
    simp [hL, String.append_assoc]
  · intro hle
    have hnot : ¬ ib < ia := not_lt.mpr hle
    simp only [normalizeDesc, hfp, htail, hhint, hop, if_neg hnot]
    simp [hL, String.append_assoc]

/-- Witness for C1 at the claim's concrete instance: box `M#248` with
`sequence_index(41121)=0`, `sequence_index(41122)=3` reorders the action
description to `left=41121, right=41122`. -/
theorem C1_explicit_common_box_ordering_witness :
    normalizeDesc "1: Add" "Splice 41122 [73 - 84] 41121 [73 - 84] M#248 - M#248"
      [("M#248", [("41121", 0), ("41122", 3)])] [] [] =
      "Splice 41121 [73 - 84] 41122 [73 - 84] M#248 - M#248" := by
  have h := C1_explicit_common_box_ordering
      [("M#248", [("41121", 0), ("41122", 3)])] [] [] "1: Add"
      "Splice 41122 [73 - 84] 41121 [73 - 84] M#248 - M#248"
      ⟨"Splice", "41122", "73 - 84", "41121", "73 - 84"⟩
      "M#248" [("41121", 0), ("41122", 3)] 3 0
      (by rfl) (by rfl) (by decide) (by rfl) (by rfl) (by rfl)
  have h2 := h.1 (by decide)
  rw [h2]
  rfl

/-- Counterexample to C2 as stated: an action pair with no common box and no
observed orientation is nevertheless reordered when exactly one endpoint is
known to the reverse index (`fiber_action.py` lines 250-256 put the known
PMID on the left), so the original `(A, B)` order is not always retained. -/
theorem C2_no_info_fallback_counterexample :
    normalizeDesc "1: Add" "Splice 111 [1] 222 [1]"
      [("M#1", [("222", 0)])] [("222", ["M#1"])] [] = "Splice 222 [1] 111 [1]" ∧
    findCommonBox "111" "222" [("M#1", [("222", 0)])] [("222", ["M#1"])]
      (pickedHint "Splice 111 [1] 222 [1]") = none ∧
    lookupPairKey [] "111" "222" = none ∧
    "Splice 222 [1] 111 [1]" ≠ "Splice 111 [1] 222 [1]" := by
  refine ⟨by rfl, by rfl, by rfl, by decide⟩

/-- C2 (amended).  No-information fallback: when no common box resolves the
pair, no observed orientation exists for it, and the reverse index knows
either both endpoints or neither (the code's extra single-known-PMID rule
then does not fire), `_normalize_desc` keeps the original `(A, B)` order;
the embedding is a total function, so no exception is possible. -/
theorem C2_no_info_fallback
    (co : CAOrder) (bp : BoxesByPmid) (po : PairOrient)
    (action desc : String) (m : PairMatch) (L1 L2 : String)
    (hfp : findPair desc = some m)
    (htail : pickLocationTail desc = (L1, L2))
    (hcb : findCommonBox m.A m.B co bp (pickedHint desc) = none)
    (hpo : lookupPairKey po m.A m.B = none)
    (hkn : ((lookupA m.A bp).getD []).isEmpty = ((lookupA m.B bp).getD []).isEmpty) :
    normalizeDesc action desc co bp po =
      (if L1 ≠ "" ∧ L2 ≠ ""
       then verbFromAction action ++ " " ++ m.A ++ " [" ++ m.Ar ++ "] " ++ m.B ++
         " [" ++ m.Br ++ "]" ++ " " ++ L1 ++ " - " ++ L2
       else verbFromAction action ++ " " ++ m.A ++ " [" ++ m.Ar ++ "] " ++ m.B ++
         " [" ++ m.Br ++ "]") := by
  have hop : orientPair m.A m.Ar m.B m.Br (pickedHint desc) co bp po =
      (m.A, m.Ar, m.B, m.Br) := by
    unfold orientPair
    rw [hcb, hpo]
    by_cases he : ((lookupA m.A bp).getD []).isEmpty
    · have hb : ((lookupA m.B bp).getD []).isEmpty = true := by rw [← hkn]; exact he
      simp [he, hb]
    · have he' : ((lookupA m.A bp).getD []).isEmpty = false := by
        simpa using he
      have hb : ((lookupA m.B bp).getD []).isEmpty = false := by rw [← hkn]; exact he'
      simp [he', hb]
  by_cases hl : L1 ≠ "" ∧ L2 ≠ ""
  · simp only [normalizeDesc, hfp, htail, hop, if_pos hl]
  · simp only [normalizeDesc, hfp, htail, hop, if_neg hl]

/-- Witness for the amended C2: endpoints unseen anywhere in the CA index
keep their original order. -/
theorem C2_no_info_fallback_witness :
    normalizeDesc "1: Add" "Splice 111 [1] 222 [1]" [] [] [] =
      "Splice 111 [1] 222 [1]" := by
  have h := C2_no_info_fallback [] [] [] "1: Add" "Splice 111 [1] 222 [1]"
      ⟨"Splice", "111", "1", "222", "1"⟩ "" ""
      (by rfl) (by rfl) (by rfl) (by rfl) (by rfl)
  rw [h]
  rfl

/-- C3.  Verb precedence: whenever the description parses as a splice/break
pair, the emitted verb is decided by the action label alone — `remove` or
`break` in the label (case-insensitively) yields `BREAK`, anything else
yields `Splice` — and the rest of the normalized description does not depend
on the label at all. -/
theorem C3_verb_label_precedence
    (action desc : String) (co : CAOrder) (bp : BoxesByPmid) (po : PairOrient)
    (m : PairMatch) (hfp : findPair desc = some m) :
    normalizeDesc action desc co bp po =
      (if containsLow "remove" action || containsLow "break" action then "BREAK"
       else "Splice") ++ " " ++ normRest desc m co bp po := by
  rcases ho : orientPair m.A m.Ar m.B m.Br (pickedHint desc) co bp po with
    ⟨a2, ar2, b2, br2⟩
  by_cases hl : (pickLocationTail desc).1 ≠ "" ∧ (pickLocationTail desc).2 ≠ ""
  · simp only [normalizeDesc, hfp, normRest, verbFromAction, ho, if_pos hl]
    simp [String.append_assoc]
  · simp only [normalizeDesc, hfp, normRest, verbFromAction, ho, if_neg hl]
    simp [String.append_assoc]

/-- Witness for C3 at the claim's concrete instance: an action labeled
`2: Remove (E)` whose description says `Splice ...` is classified `BREAK`. -/
theorem C3_verb_label_precedence_witness :
    normalizeDesc "2: Remove (E)" "Splice 41121 [1] 41122 [1]" [] [] [] =
      "BREAK 41121 [1] 41122 [1]" := by
  have h := C3_verb_label_precedence "2: Remove (E)" "Splice 41121 [1] 41122 [1]"
      [] [] [] ⟨"Splice", "41121", "1", "41122", "1"⟩ (by rfl)
  rw [h]
  rfl

theorem setA_lookup_self {α β : Type} [DecidableEq α] (k : α) (v : β)
    (l : List (α × β)) : lookupA k (setA k v l) = some v := by
  induction l with
  | nil => simp [setA, lookupA]
  | cons hd tl ih =>
    rcases hd with ⟨k', v'⟩
    by_cases hk : k = k'
    · simp [setA, hk, lookupA]
    · simp [setA, hk, lookupA, ih]

/-- Counterexample to C4 as stated: a second `Calculated:` line for the same
PMID overwrites the already-populated `calculated_length_m` field
(fiber_trace.py lines 110-112 prefer the new value whenever the new line
provides one). -/
theorem C4_length_null_fill_counterexample :
    (parseSectionBody ["PMID: 41121 Calculated: 100"]).lengths =
      [("41121", (some 100, none))] ∧
    (parseSectionBody
      ["PMID: 41121 Calculated: 100", "PMID: 41121 Calculated: 200"]).lengths =
      [("41121", (some 200, none))] ∧
    (some 200 : Option Nat) ≠ some 100 :=
  ⟨rfl, rfl, by decide⟩

/-- C4 (amended).  Length-measurement merging is last-non-null-wins: a later
measurement line for a PMID overwrites each field for which it carries a
value and keeps the previous value only for fields it leaves null. -/
theorem C4_length_measurement_merge
    (ls : List String) (t d : String) (p : String) (ids : List String)
    (hd : decodeText t = d)
    (hca : leadsWith "CA".data (upperText d).data = false)
    (hsp : hasOccur "-- SPLICE --".data (upperText d).data = false)
    (hkw : (hasOccur "CABLE LENGTH".data (upperText d).data ||
            hasOccur "CALCULATED".data (upperText d).data ||
            hasOccur "OTDR".data (upperText d).data) = true)
    (hids : pmidsScan d = p :: ids) :
    lookupA p (parseSectionBody (ls ++ [t])).lengths =
      some
        ((if (scanFirstOpt calcAt d.data).isSome then scanFirstOpt calcAt d.data
          else ((lookupA p (parseSectionBody ls).lengths).getD (none, none)).1),
         (if (scanFirstOpt otdrAt d.data).isSome then scanFirstOpt otdrAt d.data
          else ((lookupA p (parseSectionBody ls).lengths).getD (none, none)).2)) := by
  unfold parseSectionBody
  rw [List.foldl_append, List.foldl_cons, List.foldl_nil]
  conv_lhs => rw [sectionStep, hd, hca]
  simp only [Bool.false_eq_true, if_false, hsp, hkw, if_true, hids]
  exact setA_lookup_self _ _ _

/-- Witness for the amended C4: an `OTDR` line arriving after a `Calculated`
line fills only the still-null OTDR field and keeps the calculated value. -/
theorem C4_length_measurement_merge_witness :
    lookupA "41121"
      (parseSectionBody
        ["PMID: 41121 Calculated: 100", "PMID: 41121 OTDR: 300"]).lengths =
      some (some 100, some 300) := by
  have h := C4_length_measurement_merge ["PMID: 41121 Calculated: 100"]
      "PMID: 41121 OTDR: 300" "PMID: 41121 OTDR: 300" "41121" []
      (by rfl) (by rfl) (by rfl) (by rfl) (by rfl)
  refine Eq.trans ?_ (h.trans ?_)
  · rfl
  · rfl

theorem sortedDedup_consec : ∀ (n : Nat) (a : Nat),
    sortedDedup (consecFrom a n) = consecFrom a n := by
  intro n
  induction n with
  | zero => intro a; rfl
  | succ m ih =>
    intro a
    show sortedDedup (a :: consecFrom (a + 1) m) = a :: consecFrom (a + 1) m
    have hstep : sortedDedup (a :: consecFrom (a + 1) m) =
        insertD a (sortedDedup (consecFrom (a + 1) m)) := rfl
    rw [hstep, ih (a + 1)]
    cases m with
    | zero => rfl
    | succ m2 =>
      show insertD a ((a + 1) :: consecFrom (a + 1 + 1) m2) = _
      simp only [insertD, if_pos (Nat.lt_succ_self a)]
      rfl

theorem runsAux_consec : ∀ (m : Nat) (a b : Nat),
    runsAux a b (consecFrom (b + 1) m) = [(a, b + m)] := by
  intro m
  induction m with
  | zero => intro a b; rfl
  | succ m2 ih =>
    intro a b
    show runsAux a b ((b + 1) :: consecFrom (b + 1 + 1) m2) = [(a, b + (m2 + 1))]
    have : runsAux a b ((b + 1) :: consecFrom (b + 1 + 1) m2) =
        runsAux a (b + 1) (consecFrom (b + 1 + 1) m2) := by
      simp [runsAux]
    rw [this, ih a (b + 1)]
    have : b + 1 + m2 = b + (m2 + 1) := by omega
    rw [this]

theorem compact_eq_cons (nums : List Nat) (x : Nat) (xs : List Nat)
    (h : sortedDedup nums = x :: xs) :
    compact nums =
      joinComma ((runsAux x x xs).map
        (fun pr => if pr.1 = pr.2 then toString pr.1
                   else toString pr.1 ++ "-" ++ toString pr.2)) := by
  unfold compact
  rw [h]

/-- C6.  Grouper run-length compaction: the three raw observations
`(A,1)-(B,10)`, `(A,2)-(B,11)`, `(A,3)-(B,12)` yield exactly one group for
the pair `(A, B)` with left range `1-3`, right range `10-12` and
`fiber_count = 3`; in general `_compact` merges any block of consecutive
fiber indices into a single `a-b` range and keeps a singleton standalone. -/
theorem C6_grouper_run_length_compaction :
    groupSplices
      ["PMID: A, Aptum ID: .F1 -- Splice -- PMID: B, Aptum ID: .F10",
       "PMID: A, Aptum ID: .F2 -- Splice -- PMID: B, Aptum ID: .F11",
       "PMID: A, Aptum ID: .F3 -- Splice -- PMID: B, Aptum ID: .F12"] =
      some ("PMID: A, Aptum ID: .F[1-3] -- Existing Splice(s) -- PMID: B, Aptum ID: .F[10-12]",
        3) ∧
    (∀ a n : Nat, compact (consecFrom a (n + 2)) =
      toString a ++ "-" ++ toString (a + (n + 1))) ∧
    (∀ a : Nat, compact [a] = toString a) := by
  refine ⟨rfl, ?_, ?_⟩
  · intro a n
    have hsd : sortedDedup (consecFrom a (n + 2)) =
        a :: consecFrom (a + 1) (n + 1) := by
      rw [sortedDedup_consec]
      rfl
    rw [compact_eq_cons _ a _ hsd, runsAux_consec (n + 1) a a]
    have hne : ¬ a = a + (n + 1) := by omega
    simp [joinComma, hne]
  · intro a
    have hsd : sortedDedup [a] = a :: [] := rfl
    rw [compact_eq_cons _ a _ hsd]
    simp [runsAux, joinComma]

/-- Counterexample to C5 as stated: with left fiber set `{1,2,3}` and right
fiber set `{10,11}` the reported count is `len(set(L)) = 3`
(fiber_trace.py line 130), not the smaller cardinality `2`. -/
theorem C5_grouper_mismatch_counterexample :
    groupSplices
      ["PMID: A, Aptum ID: .F1 -- Splice -- PMID: B, Aptum ID: .F10",
       "PMID: A, Aptum ID: .F2 -- Splice -- PMID: B, Aptum ID: .F10",
       "PMID: A, Aptum ID: .F3 -- Splice -- PMID: B, Aptum ID: .F11"] =
      some ("PMID: A, Aptum ID: .F[1-3] -- Existing Splice(s) -- PMID: B, Aptum ID: .F[10-11]",
        3) ∧
    min (firstSeen [1, 2, 3]).length (firstSeen [10, 10, 11]).length = 2 ∧
    (3 : Nat) ≠ 2 :=
  ⟨rfl, rfl, by decide⟩

theorem spliceStep_uniform (a b : String) (L0 R0 : List Nat)
    (s : String) (o : Nat × Nat)
    (hs : pmidsScan s = [a, b]) (ho : fnumsScan s = [o.1, o.2]) :
    spliceStep [((a, b), (L0, R0))] s =
      [((a, b), (L0 ++ [o.1], R0 ++ [o.2]))] := by
  unfold spliceStep
  rw [hs, ho]
  simp [pairsUpd, List.getLastD]

theorem pairsOf_uniform_go (a b : String) :
    ∀ (ss : List String) (obs : List (Nat × Nat)),
    List.Forall₂ (fun s (o : Nat × Nat) =>
      pmidsScan s = [a, b] ∧ fnumsScan s = [o.1, o.2]) ss obs →
    ∀ L0 R0, ss.foldl spliceStep [((a, b), (L0, R0))] =
      [((a, b), (L0 ++ obs.map Prod.fst, R0 ++ obs.map Prod.snd))] := by
  intro ss obs hf
  induction hf with
  | nil => intro L0 R0; simp
  | cons hP hrest ih =>
    intro L0 R0
    rw [List.foldl_cons, spliceStep_uniform a b L0 R0 _ _ hP.1 hP.2, ih]
    simp

/-- C5 (amended).  Grouper mismatch handling: for raw observations of a
single PMID pair, grouping always succeeds and the reported `fiber_count`
equals the number of distinct left-side fiber indices — even when the
right-side set has a different cardinality (there is no `min`). -/
theorem C5_grouper_mismatch
    (splices : List String) (a b : String) (obs : List (Nat × Nat))
    (hf : List.Forall₂ (fun s (o : Nat × Nat) =>
      pmidsScan s = [a, b] ∧ fnumsScan s = [o.1, o.2]) splices obs)
    (hne : splices ≠ []) :
    groupSplices splices =
      some ("PMID: " ++ a ++ ", Aptum ID: .F[" ++ compact (obs.map Prod.fst) ++
        "] -- Existing Splice(s) -- PMID: " ++ b ++ ", Aptum ID: .F[" ++
        compact (obs.map Prod.snd) ++ "]",
        (firstSeen (obs.map Prod.fst)).length) := by
  cases hf with
  | nil => exact absurd rfl hne
  | cons hP hrest =>
    rename_i s o ss obs2
    have hpairs : pairsOfSplices (s :: ss) =
        [((a, b), (o.1 :: obs2.map Prod.fst, o.2 :: obs2.map Prod.snd))] := by
      unfold pairsOfSplices
      rw [List.foldl_cons]
      have h0 : spliceStep [] s = [((a, b), ([o.1], [o.2]))] := by
        unfold spliceStep
        rw [hP.1, hP.2]
        simp [pairsUpd, List.getLastD]
      rw [h0, pairsOf_uniform_go a b ss obs2 hrest [o.1] [o.2]]
      simp
    unfold groupSplices
    rw [hpairs]
    simp [pickMaxPair]

/-- Witness for the amended C5 at a concrete mismatching input: left indices
`{5,6,7}`, right indices `{20,21}`, reported count `3`. -/
theorem C5_grouper_mismatch_witness :
    groupSplices
      ["PMID: X, Aptum ID: .F5 -- Splice -- PMID: Y, Aptum ID: .F20",
       "PMID: X, Aptum ID: .F6 -- Splice -- PMID: Y, Aptum ID: .F20",
       "PMID: X, Aptum ID: .F7 -- Splice -- PMID: Y, Aptum ID: .F21"] =
      some ("PMID: X, Aptum ID: .F[5-7] -- Existing Splice(s) -- PMID: Y, Aptum ID: .F[20-21]",
        3) := by
  have h := C5_grouper_mismatch
      ["PMID: X, Aptum ID: .F5 -- Splice -- PMID: Y, Aptum ID: .F20",
       "PMID: X, Aptum ID: .F6 -- Splice -- PMID: Y, Aptum ID: .F20",
       "PMID: X, Aptum ID: .F7 -- Splice -- PMID: Y, Aptum ID: .F21"]
      "X" "Y" [(5, 20), (6, 20), (7, 21)]
      (List.Forall₂.cons ⟨rfl, rfl⟩ (List.Forall₂.cons ⟨rfl, rfl⟩
        (List.Forall₂.cons ⟨rfl, rfl⟩ List.Forall₂.nil)))
      (List.cons_ne_nil _ _)
  refine Eq.trans h ?_
  rfl

theorem lookupA_isSome_iff {α β : Type} [DecidableEq α] (k : α)
    (l : List (α × β)) : (lookupA k l).isSome = true ↔ k ∈ l.map Prod.fst := by
  induction l with
  | nil => simp [lookupA]
  | cons hd tl ih =>
    rcases hd with ⟨k', v⟩
    by_cases hk : k = k'
    · simp [lookupA, hk]
    · simp [lookupA, hk, ih]

theorem fsAux_congr {α : Type} [DecidableEq α] :
    ∀ (l : List α) (s1 s2 : List α), (∀ x, x ∈ s1 ↔ x ∈ s2) →
    fsAux s1 l = fsAux s2 l := by
  intro l
  induction l with
  | nil => intro s1 s2 _; rfl
  | cons x xs ih =>
    intro s1 s2 hs
    by_cases hx : x ∈ s1
    · have hx2 : x ∈ s2 := (hs x).mp hx
      simp [fsAux, hx, hx2, ih s1 s2 hs]
    · have hx2 : x ∉ s2 := fun h => hx ((hs x).mpr h)
      simp only [fsAux, if_neg hx, if_neg hx2]
      refine congrArg (x :: ·) (ih _ _ ?_)
      intro y
      simp [hs y]

theorem foldl_omStep_decomp :
    ∀ (ps : List String) (m : OrderMap),
    ps.foldl omStep m = m ++ enumFrom m.length (fsAux (m.map Prod.fst) ps) := by
  intro ps
  induction ps with
  | nil => intro m; simp [fsAux, enumFrom]
  | cons p ps ih =>
    intro m
    rw [List.foldl_cons]
    by_cases hp : (lookupA p m).isSome = true
    · have hmem : p ∈ m.map Prod.fst := (lookupA_isSome_iff p m).mp hp
      have hstep : omStep m p = m := by simp [omStep, hp]
      rw [hstep, ih m]
      simp [fsAux, hmem]
    · have hmem : p ∉ m.map Prod.fst := fun h =>
        hp ((lookupA_isSome_iff p m).mpr h)
      have hstep : omStep m p = m ++ [(p, m.length)] := by
        simp only [omStep]
        rw [if_neg hp]
      rw [hstep, ih (m ++ [(p, m.length)])]
      have hkeys : (m ++ [(p, m.length)]).map Prod.fst = m.map Prod.fst ++ [p] := by
        simp
      rw [hkeys]
      have hcongr : fsAux (m.map Prod.fst ++ [p]) ps = fsAux (p :: m.map Prod.fst) ps := by
        refine fsAux_congr ps _ _ ?_
        intro y
        simp [or_comm]
      rw [hcongr]
      have hlen : (m ++ [(p, m.length)]).length = m.length + 1 := by simp
      rw [hlen]
      have hfs : fsAux (m.map Prod.fst) (p :: ps) =
          p :: fsAux (p :: m.map Prod.fst) ps := by
        simp [fsAux, hmem]
      rw [hfs]
      simp [enumFrom]

theorem lookupA_enumFrom {p : String} :
    ∀ (l : List String) (n : Nat),
    lookupA p (enumFrom n l) = (posOfFirst p l).map (· + n) := by
  intro l
  induction l with
  | nil => intro n; rfl
  | cons y ys ih =>
    intro n
    by_cases hp : p = y
    · simp [enumFrom, lookupA, posOfFirst, hp]
    · simp only [enumFrom, lookupA, if_neg hp, posOfFirst, ih (n + 1)]
      rcases posOfFirst p ys with _ | k
      · simp
      · simp
        omega

theorem lookupA_orderMapOf (ps : List String) (p : String) :
    lookupA p (orderMapOf ps) = posOfFirst p (firstSeen ps) := by
  unfold orderMapOf firstSeen
  rw [foldl_omStep_decomp ps []]
  show lookupA p (enumFrom 0 (fsAux ([] : List String) ps)) = _
  rw [lookupA_enumFrom]
  rcases posOfFirst p (fsAux [] ps) with _ | k <;> simp

theorem caLines_fold (c : String) (hc : c ≠ "") :
    ∀ (ps : List String) (st : OrderState) (om : OrderMap),
    ∃ st2 : OrderState,
      (ps.map OrderLine.caLine).foldl lineStep (st, some c, om) =
        (st2, some c, ps.foldl omStep om) ∧ st2.caOrder = st.caOrder := by
  intro ps
  induction ps with
  | nil => intro st om; exact ⟨st, rfl, rfl⟩
  | cons p ps ih =>
    intro st om
    rw [List.map_cons, List.foldl_cons, List.foldl_cons]
    by_cases hp : (lookupA p om).isSome = true
    · have hstep : lineStep (st, some c, om) (OrderLine.caLine p) =
          (st, some c, om) := by
        simp [lineStep, hc, hp]
      have homs : omStep om p = om := by simp [omStep, hp]
      rw [hstep, homs]
      exact ih st om
    · have hstep : lineStep (st, some c, om) (OrderLine.caLine p) =
          ({ st with boxes := addBox p c st.boxes }, some c,
           om ++ [(p, om.length)]) := by
        simp only [lineStep, hc, ne_eq, not_false_iff, if_true]
        rw [if_neg hp]
      have homs : omStep om p = om ++ [(p, om.length)] := by
        simp only [omStep]
        rw [if_neg hp]
      rw [hstep, homs]
      rcases ih { st with boxes := addBox p c st.boxes } (om ++ [(p, om.length)]) with
        ⟨st2, heq, hco⟩
      exact ⟨st2, heq, hco⟩

theorem foldl_omStep_ne_nil :
    ∀ (ps : List String) (m : OrderMap), m ≠ [] → ps.foldl omStep m ≠ [] := by
  intro ps
  induction ps with
  | nil => intro m hm; simpa using hm
  | cons p ps ih =>
    intro m hm
    rw [List.foldl_cons]
    refine ih _ ?_
    unfold omStep
    by_cases hp : (lookupA p m).isSome = true
    · simpa [hp] using hm
    · rw [if_neg hp]
      simp

/-- C7.  CA order index first-seen ordering: (1) the rank stored for a PMID
by the `_parse_json_for_order` order-map update equals the number of
distinct PMIDs seen before its first occurrence (so a repeated PMID keeps
its first rank); (2) a blob consisting of one box header followed by CA
lines stores exactly that order map under the box. -/
theorem C7_ca_order_first_seen :
    (∀ (ps : List String) (p : String),
      lookupA p (orderMapOf ps) = posOfFirst p (firstSeen ps)) ∧
    (∀ (bx : String) (ps : List String), bx ≠ "" → ps ≠ [] →
      lookupA bx (parseJsonForOrder
        [OrderLine.boxHeader bx :: ps.map OrderLine.caLine]).caOrder =
        some (orderMapOf ps)) := by
  constructor
  · exact lookupA_orderMapOf
  · intro bx ps hbx hps
    unfold parseJsonForOrder
    rw [List.foldl_cons, List.foldl_nil]
    unfold blobStep
    rw [List.foldl_cons]
    have hhd : lineStep ((⟨[], [], []⟩ : OrderState), none, []) (OrderLine.boxHeader bx) =
        ((⟨[], [], []⟩ : OrderState), some bx, []) := rfl
    rw [hhd]
    rcases caLines_fold bx hbx ps ⟨[], [], []⟩ [] with ⟨st2, heq, hco⟩
    rw [heq]
    show lookupA bx (flushBox st2 (some bx) (ps.foldl omStep [])).caOrder = _
    have hom : ps.foldl omStep [] = orderMapOf ps := rfl
    have hne : orderMapOf ps ≠ [] := by
      rcases ps with _ | ⟨q, qs⟩
      · exact absurd rfl hps
      · unfold orderMapOf
        rw [List.foldl_cons]
        refine foldl_omStep_ne_nil qs _ ?_
        simp [omStep, lookupA]
    have hlook : (lookupA bx st2.caOrder).isNone = true := by
      rw [hco]
      rfl
    have hcond : bx ≠ "" ∧ ps.foldl omStep [] ≠ [] ∧
        (lookupA bx st2.caOrder).isNone = true := ⟨hbx, hom ▸ hne, hlook⟩
    simp only [flushBox]
    rw [if_pos hcond]
    show lookupA bx (st2.caOrder ++ [(bx, ps.foldl omStep [])]) = _
    rw [hco]
    simp [lookupA, hom]

/-- Witness for C7: CA lines seen in PMID order `P1, P3, P2, P1` give ranks
`0, 1, 2` with the repeated `P1` keeping rank `0`. -/
theorem C7_ca_order_first_seen_witness :
    lookupA "M#9" (parseJsonForOrder
      [[OrderLine.boxHeader "M#9", OrderLine.caLine "P1", OrderLine.caLine "P3",
        OrderLine.caLine "P2", OrderLine.caLine "P1"]]).caOrder =
      some [("P1", 0), ("P3", 1), ("P2", 2)] ∧
    lookupA "P2" (orderMapOf ["P1", "P3", "P2", "P1"]) = some 2 ∧
    lookupA "P1" (orderMapOf ["P1", "P3", "P2", "P1"]) = some 0 := by
  refine ⟨?_, ?_, ?_⟩
  · have h := C7_ca_order_first_seen.2 "M#9" ["P1", "P3", "P2", "P1"]
        (by decide) (List.cons_ne_nil _ _)
    refine Eq.trans ?_ (h.trans ?_)
    · rfl
    · rfl
  · have h := C7_ca_order_first_seen.1 ["P1", "P3", "P2", "P1"] "P2"
    exact h.trans (by rfl)
  · have h := C7_ca_order_first_seen.1 ["P1", "P3", "P2", "P1"] "P1"
    exact h.trans (by rfl)

mutual
theorem gatherConnections_spec : ∀ (v : JsonVal),
    gatherConnections v = (pairsVal v).filterMap asConnStr
  | JsonVal.str _ => rfl
  | JsonVal.num _ => rfl
  | JsonVal.bool _ => rfl
  | JsonVal.null => rfl
  | JsonVal.obj fs => gatherFields_spec fs
  | JsonVal.arr xs => gatherElems_spec xs

theorem gatherFields_spec : ∀ (fs : JsonFields),
    gatherFields fs = (pairsFields fs).filterMap asConnStr
  | JsonFields.nil => rfl
  | JsonFields.cons k v rest => by
    have hv := gatherConnections_spec v
    have hr := gatherFields_spec rest
    by_cases hk : k = "Connections"
    · cases v with
      | str s =>
        simp [gatherFields, pairsFields, List.filterMap_cons,
          List.filterMap_append, asConnStr, hk, hr, pairsVal]
      | num n =>
        simp [gatherFields, pairsFields, List.filterMap_cons,
          List.filterMap_append, asConnStr, hk, hv, hr]
      | bool b =>
        simp [gatherFields, pairsFields, List.filterMap_cons,
          List.filterMap_append, asConnStr, hk, hv, hr]
      | null =>
        simp [gatherFields, pairsFields, List.filterMap_cons,
          List.filterMap_append, asConnStr, hk, hv, hr]
      | obj fs2 =>
        simp [gatherFields, pairsFields, List.filterMap_cons,
          List.filterMap_append, asConnStr, hk, hv, hr]
      | arr xs2 =>
        simp [gatherFields, pairsFields, List.filterMap_cons,
          List.filterMap_append, asConnStr, hk, hv, hr]
    · simp [gatherFields, pairsFields, List.filterMap_cons,
        List.filterMap_append, asConnStr, hk, hv, hr]

theorem gatherElems_spec : ∀ (xs : JsonElems),
    gatherElems xs = (pairsElems xs).filterMap asConnStr
  | JsonElems.nil => rfl
  | JsonElems.cons v rest => by
    have hv := gatherConnections_spec v
    have hr := gatherElems_spec rest
    simp [gatherElems, pairsElems, List.filterMap_append, hv, hr]
end

theorem fsAux_props {α : Type} [DecidableEq α] :
    ∀ (l seen : List α), (fsAux seen l).Nodup ∧ ∀ x ∈ fsAux seen l, x ∉ seen := by
  intro l
  induction l with
  | nil => intro seen; exact ⟨List.nodup_nil, by simp [fsAux]⟩
  | cons x xs ih =>
    intro seen
    by_cases hx : x ∈ seen
    · simpa [fsAux, hx] using ih seen
    · rcases ih (x :: seen) with ⟨hnd, hmem⟩
      refine ⟨?_, ?_⟩
      · simp only [fsAux, if_neg hx]
        refine List.nodup_cons.mpr ⟨?_, hnd⟩
        intro hxin
        exact hmem x hxin (by simp)
      · intro y hy
        simp only [fsAux, if_neg hx, List.mem_cons] at hy
        rcases hy with rfl | hy
        · exact hx
        · intro hys
          exact hmem y hy (by simp [hys])

theorem fsAux_sublist {α : Type} [DecidableEq α] :
    ∀ (l seen : List α), (fsAux seen l).Sublist l := by
  intro l
  induction l with
  | nil => intro seen; simp [fsAux]
  | cons x xs ih =>
    intro seen
    by_cases hx : x ∈ seen
    · simp only [fsAux, if_pos hx]
      exact (ih seen).trans (List.sublist_cons_self x xs)
    · simp only [fsAux, if_neg hx]
      exact (ih (x :: seen)).cons₂ x

theorem fsAux_complete {α : Type} [DecidableEq α] :
    ∀ (l seen : List α) (x : α), x ∈ l → x ∈ seen ∨ x ∈ fsAux seen l := by
  intro l
  induction l with
  | nil => intro seen x hx; cases hx
  | cons y ys ih =>
    intro seen x hx
    by_cases hy : y ∈ seen
    · simp only [fsAux, if_pos hy]
      rcases List.mem_cons.mp hx with rfl | hx2
      · exact Or.inl hy
      · exact ih seen x hx2
    · simp only [fsAux, if_neg hy]
      rcases List.mem_cons.mp hx with rfl | hx2
      · exact Or.inr (by simp)
      · rcases ih (y :: seen) x hx2 with h | h
        · rcases List.mem_cons.mp h with rfl | h2
          · exact Or.inr (by simp)
          · exact Or.inl h2
        · exact Or.inr (by simp [h])

/-- Counterexample to C8 as stated: the recursive extractor keeps duplicate
blobs (no deduplication), and the extractor that does deduplicate
(`_get_connection_blobs`) searches only the fixed path, missing a nested
`Connections` key. -/
theorem C8_connections_discovery_counterexample :
    gatherConnections c8docDup = ["x", "x"] ∧
    firstSeen (gatherConnections c8docDup) = ["x"] ∧
    (["x", "x"] : List String) ≠ ["x"] ∧
    getConnectionBlobs c8docNested = [] ∧
    gatherConnections c8docNested = ["y"] :=
  ⟨rfl, rfl, by decide, rfl, rfl⟩

/-- C8 (amended).  The recursive extractor returns exactly the string values
under keys literally named `Connections`, at any nesting depth and in
document order, but keeps duplicates; first-seen deduplication happens only
in `_get_connection_blobs`, whose output is a duplicate-free sublist of its
fixed-path raw blob list containing every raw blob. -/
theorem C8_connections_discovery :
    (∀ j : JsonVal, gatherConnections j = connStringsSpec j) ∧
    (∀ p : JsonVal,
      (getConnectionBlobs p).Nodup ∧
      (getConnectionBlobs p).Sublist (connBlobsRaw p) ∧
      ∀ s ∈ connBlobsRaw p, s ∈ getConnectionBlobs p) := by
  refine ⟨gatherConnections_spec, ?_⟩
  intro p
  refine ⟨(fsAux_props (connBlobsRaw p) []).1, fsAux_sublist _ _, ?_⟩
  intro s hs
  rcases fsAux_complete (connBlobsRaw p) [] s hs with h | h
  · cases h
  · exact h

theorem zipTakeEq {α β : Type} :
    ∀ (l1 : List α) (l2 : List β) (k : Nat),
    (l1.take k).zip (l2.take k) = (l1.zip l2).take k := by
  intro l1
  induction l1 with
  | nil => intro l2 k; simp
  | cons x xs ih =>
    intro l2 k
    cases l2 with
    | nil => simp
    | cons y ys =>
      cases k with
      | zero => simp
      | succ k2 => simp [ih ys k2]

theorem zipDropEq {α β : Type} :
    ∀ (l1 : List α) (l2 : List β) (k : Nat),
    (l1.drop k).zip (l2.drop k) = (l1.zip l2).drop k := by
  intro l1
  induction l1 with
  | nil => intro l2 k; simp
  | cons x xs ih =>
    intro l2 k
    cases l2 with
    | nil => simp
    | cons y ys =>
      cases k with
      | zero => simp
      | succ k2 => simp [ih ys k2]

theorem mem_zip_replicate_none {α : Type} :
    ∀ (rows : List α) (n : Nat) (pr : α × Option String),
    pr ∈ rows.zip (List.replicate n (none : Option String)) → pr.2 = none := by
  intro rows
  induction rows with
  | nil => intro n pr h; simp at h
  | cons r rs ih =>
    intro n pr h
    cases n with
    | zero => simp at h
    | succ n2 =>
      rw [List.replicate_succ, List.zip_cons_cons] at h
      rcases List.mem_cons.mp h with rfl | h2
      · rfl
      · exact ih n2 pr h2

theorem applyInsert_inv (df : List (List String)) (gmaps : List (Option String))
    (ranges : List (Nat × Nat)) (pl : List (Nat × List String)) (bi : Nat)
    (st : List (List String) × List (Option String))
    (h : InsInv df gmaps st) : InsInv df gmaps (applyInsert ranges pl st bi) := by
  rcases h with ⟨hsub, hlen, hmem⟩
  unfold applyInsert
  set rowsb := (pl.filter (fun p => p.1 = bi)).map (fun p => p.2) with hrowsb
  set k := insertPos st.1 bi ranges with hk
  set z := st.1.zip st.2 with hz
  have hzip : (st.1.take k ++ rowsb ++ st.1.drop k).zip
      (st.2.take k ++ List.replicate rowsb.length none ++ st.2.drop k) =
      z.take k ++ rowsb.zip (List.replicate rowsb.length none) ++ z.drop k := by
    rw [List.zip_append, List.zip_append, zipTakeEq, zipDropEq]
    · simp [List.length_take, hlen]
    · simp [List.length_append, List.length_take, List.length_replicate, hlen]
  refine ⟨?_, ?_, ?_⟩
  · show (df.zip gmaps).Sublist _
    rw [hzip]
    have h1 : (z.drop k).Sublist
        (rowsb.zip (List.replicate rowsb.length none) ++ z.drop k) :=
      List.sublist_append_right _ _
    have h2 : (z.take k ++ z.drop k).Sublist
        (z.take k ++ (rowsb.zip (List.replicate rowsb.length none) ++ z.drop k)) :=
      h1.append_left _
    rw [List.take_append_drop] at h2
    rw [List.append_assoc]
    exact hsub.trans h2
  · simp [List.length_append, List.length_take, List.length_drop,
      List.length_replicate, hlen]
  · intro pr hpr
    rw [hzip] at hpr
    rcases List.mem_append.mp hpr with hpr2 | hpr2
    · rcases List.mem_append.mp hpr2 with hpr3 | hpr3
      · exact hmem pr ((List.take_sublist k z).subset hpr3)
      · exact Or.inr (mem_zip_replicate_none rowsb rowsb.length pr hpr3)
    · exact hmem pr ((List.drop_sublist k z).subset hpr2)

theorem foldl_applyInsert_inv (df : List (List String))
    (gmaps : List (Option String)) (ranges : List (Nat × Nat))
    (pl : List (Nat × List String)) :
    ∀ (keys : List Nat) (st : List (List String) × List (Option String)),
    InsInv df gmaps st → InsInv df gmaps (keys.foldl (applyInsert ranges pl) st) := by
  intro keys
  induction keys with
  | nil => intro st h; exact h
  | cons b bs ih =>
    intro st h
    rw [List.foldl_cons]
    exact ih _ (applyInsert_inv df gmaps ranges pl b st h)

/-- C10.  Action insertion is purely additive: every original row/gmap pair
survives unmodified, in order and still aligned (inserted positions carry a
`none` gmap entry), the two output lists have equal length, and a `None` or
effectively-empty action table leaves both inputs unchanged. -/
theorem C10_insert_actions_additive (df : List (List String))
    (gmaps : List (Option String)) (ranges : List (Nat × Nat))
    (meta : List BlockMeta) (acts : Option (List ActRow))
    (hlen : gmaps.length = df.length) :
    (df.zip gmaps).Sublist
      ((insertActions df gmaps ranges meta acts).1.zip
       (insertActions df gmaps ranges meta acts).2.1) ∧
    (insertActions df gmaps ranges meta acts).1.length =
      (insertActions df gmaps ranges meta acts).2.1.length ∧
    (∀ pr ∈ (insertActions df gmaps ranges meta acts).1.zip
        (insertActions df gmaps ranges meta acts).2.1,
      pr ∈ df.zip gmaps ∨ pr.2 = none) ∧
    (acts = none →
      (insertActions df gmaps ranges meta acts).1 = df ∧
      (insertActions df gmaps ranges meta acts).2.1 = gmaps) ∧
    (∀ a0, acts = some a0 → classifyAndFilter a0 = [] →
      (insertActions df gmaps ranges meta acts).1 = df ∧
      (insertActions df gmaps ranges meta acts).2.1 = gmaps) := by
  have hbase : InsInv df gmaps (df, gmaps) :=
    ⟨List.Sublist.refl _, hlen.symm, fun pr h => Or.inl h⟩
  have hmain : InsInv df gmaps
      ((insertActions df gmaps ranges meta acts).1,
       (insertActions df gmaps ranges meta acts).2.1) := by
    unfold insertActions
    match acts with
    | none => exact hbase
    | some acts0 =>
      by_cases h0 : acts0.isEmpty
      · simp only [h0, if_true]
        exact hbase
      · simp only [h0, if_false]
        by_cases hcf : (classifyAndFilter acts0).isEmpty
        · simp only [hcf, if_true]
          exact hbase
        · simp only [hcf, if_false]
          exact foldl_applyInsert_inv df gmaps ranges _ _ (df, gmaps) hbase
  refine ⟨hmain.1, hmain.2.1, hmain.2.2, ?_, ?_⟩
  · intro ha
    subst ha
    exact ⟨rfl, rfl⟩
  · intro a0 ha hcf
    subst ha
    by_cases h0 : a0.isEmpty
    · simp [insertActions, h0]
    · simp [insertActions, h0, hcf]

/-- Witness for C10 at a concrete input: one block, one `Add` action; the
original row/gmap pairs survive and the new row gets a `none` gmap. -/
theorem C10_insert_actions_additive_witness :
    ([["Equipment Location", "loc", "", "", "", "", "", "", "", ""],
      ["Cable[attach]", "CA1: PMID: 41121", "", "", "", "", "", "", "", ""]].zip
        [some "url", none]).Sublist
      ((insertActions
        [["Equipment Location", "loc", "", "", "", "", "", "", "", ""],
         ["Cable[attach]", "CA1: PMID: 41121", "", "", "", "", "", "", "", ""]]
        [some "url", none] [(0, 1)] [⟨["41121"]⟩]
        (some [⟨"1: Add", "Splice 41121 [1-3] 41122 [1-3]", ""⟩])).1.zip
       (insertActions
        [["Equipment Location", "loc", "", "", "", "", "", "", "", ""],
         ["Cable[attach]", "CA1: PMID: 41121", "", "", "", "", "", "", "", ""]]
        [some "url", none] [(0, 1)] [⟨["41121"]⟩]
        (some [⟨"1: Add", "Splice 41121 [1-3] 41122 [1-3]", ""⟩])).2.1) ∧
    (insertActions
      [["Equipment Location", "loc", "", "", "", "", "", "", "", ""],
       ["Cable[attach]", "CA1: PMID: 41121", "", "", "", "", "", "", "", ""]]
      [some "url", none] [(0, 1)] [⟨["41121"]⟩]
      (some [⟨"1: Add", "Splice 41121 [1-3] 41122 [1-3]", ""⟩])).2.1 =
      [some "url", none, none] := by
  refine ⟨(C10_insert_actions_additive
    [["Equipment Location", "loc", "", "", "", "", "", "", "", ""],
     ["Cable[attach]", "CA1: PMID: 41121", "", "", "", "", "", "", "", ""]]
    [some "url", none] [(0, 1)] [⟨["41121"]⟩]
    (some [⟨"1: Add", "Splice 41121 [1-3] 41122 [1-3]", ""⟩]) (by rfl)).1, ?_⟩
  rfl
